import Mathlib

/-!
Shallow embedding of the ordered-list maintenance and move protocol of the
kanban backend (`src/src-tauri/src/lib.rs`).

The SQLite tables `kanban_columns`, `kanban_cards`, `kanban_subtasks` are
modelled as lists of records with distinct primary keys.  Every SQL statement
used by the ordering core is translated to a pure list operation:

  * `SELECT id FROM t WHERE scope = ? ORDER BY position ASC, created_at ASC`
    becomes a filter followed by `List.mergeSort` with the lexicographic
    comparison on `(position, created_at)`;
  * `UPDATE t SET position = ?, updated_at = ? WHERE id = ?` becomes a map
    that rewrites the row with the matching primary key;
  * `INSERT` appends a row, `DELETE` filters it out;
  * `strftime('%Y-%m-%dT%H:%M:%fZ','now')` is modelled by an explicit clock
    argument `now : Nat` supplied to each operation (timestamps are ordered
    opaque values; `created_at` is the tie-breaker of the ORDER BY).

Each Tauri command runs all statements inside one transaction and commits at
the end; a command is therefore a function `Db → ... → Except String Db`
returning the committed state or the error carried to the caller.
-/

namespace Kanban

/-- Row of `kanban_columns` (scope: the owning board). -/
structure ColumnRow where
  id : String
  board_id : String
  title : String
  position : Int
  color : Option String
  icon : Option String
  is_enabled : Bool
  wip_limit : Option Int
  created_at : Nat
  updated_at : Nat
deriving DecidableEq, Repr

/-- Row of `kanban_cards` (scope: the owning column). -/
structure CardRow where
  id : String
  board_id : String
  column_id : String
  title : String
  description : Option String
  position : Int
  priority : String
  due_date : Option String
  archived_at : Option Nat
  created_at : Nat
  updated_at : Nat
deriving DecidableEq, Repr

/-- Row of `kanban_subtasks` (scope: the owning card). -/
structure SubtaskRow where
  id : String
  board_id : String
  card_id : String
  title : String
  is_completed : Bool
  position : Int
  created_at : Nat
  updated_at : Nat
deriving DecidableEq, Repr

/-- The database state: the three tables touched by the ordering core. -/
structure Db where
  columns : List ColumnRow
  cards : List CardRow
  subtasks : List SubtaskRow
deriving DecidableEq, Repr

/-- Well-formedness enforced by SQLite primary keys: ids are unique per table. -/
def Db.WF (db : Db) : Prop :=
  (db.columns.map (·.id)).Nodup ∧ (db.cards.map (·.id)).Nodup ∧
    (db.subtasks.map (·.id)).Nodup

instance (db : Db) : Decidable db.WF := by unfold Db.WF; infer_instance

/-- The SQL comparison `ORDER BY position ASC, created_at ASC` on the sort
key pair. -/
def sqlLe (p₁ : Int) (c₁ : Nat) (p₂ : Int) (c₂ : Nat) : Prop :=
  p₁ < p₂ ∨ (p₁ = p₂ ∧ c₁ ≤ c₂)

instance (p₁ : Int) (c₁ : Nat) (p₂ : Int) (c₂ : Nat) :
    Decidable (sqlLe p₁ c₁ p₂ c₂) := by
  unfold sqlLe
  infer_instance

/-- The per-table interface of the ordering core: primary key, scope column,
position, creation timestamp, and the `SET position = ?, updated_at = ?`
row rewrite.  The three tables instantiate it. -/
structure TableOps (α : Type) where
  rid : α → String
  scope : α → String
  pos : α → Int
  created : α → Nat
  withPos : α → Int → Nat → α
  rid_withPos : ∀ r v t, rid (withPos r v t) = rid r
  scope_withPos : ∀ r v t, scope (withPos r v t) = scope r
  pos_withPos : ∀ r v t, pos (withPos r v t) = v
  created_withPos : ∀ r v t, created (withPos r v t) = created r
  withPos_withPos : ∀ r v t v' t', withPos (withPos r v t) v' t' = withPos r v' t'

def columnT : TableOps ColumnRow where
  rid := (·.id)
  scope := (·.board_id)
  pos := (·.position)
  created := (·.created_at)
  withPos := fun r v t => { r with position := v, updated_at := t }
  rid_withPos := fun _ _ _ => rfl
  scope_withPos := fun _ _ _ => rfl
  pos_withPos := fun _ _ _ => rfl
  created_withPos := fun _ _ _ => rfl
  withPos_withPos := fun _ _ _ _ _ => rfl

def cardT : TableOps CardRow where
  rid := (·.id)
  scope := (·.column_id)
  pos := (·.position)
  created := (·.created_at)
  withPos := fun r v t => { r with position := v, updated_at := t }
  rid_withPos := fun _ _ _ => rfl
  scope_withPos := fun _ _ _ => rfl
  pos_withPos := fun _ _ _ => rfl
  created_withPos := fun _ _ _ => rfl
  withPos_withPos := fun _ _ _ _ _ => rfl

def subtaskT : TableOps SubtaskRow where
  rid := (·.id)
  scope := (·.card_id)
  pos := (·.position)
  created := (·.created_at)
  withPos := fun r v t => { r with position := v, updated_at := t }
  rid_withPos := fun _ _ _ => rfl
  scope_withPos := fun _ _ _ => rfl
  pos_withPos := fun _ _ _ => rfl
  created_withPos := fun _ _ _ => rfl
  withPos_withPos := fun _ _ _ _ _ => rfl

theorem columnT_rid_apply (r : ColumnRow) : columnT.rid r = r.id := rfl

theorem columnT_scope_apply (r : ColumnRow) : columnT.scope r = r.board_id := rfl

theorem columnT_pos_apply (r : ColumnRow) : columnT.pos r = r.position := rfl

theorem cardT_rid_apply (r : CardRow) : cardT.rid r = r.id := rfl

theorem cardT_scope_apply (r : CardRow) : cardT.scope r = r.column_id := rfl

theorem cardT_pos_apply (r : CardRow) : cardT.pos r = r.position := rfl

theorem subtaskT_rid_apply (r : SubtaskRow) : subtaskT.rid r = r.id := rfl

theorem subtaskT_scope_apply (r : SubtaskRow) : subtaskT.scope r = r.card_id := rfl

theorem subtaskT_pos_apply (r : SubtaskRow) : subtaskT.pos r = r.position := rfl

variable {α : Type}

/-- `WHERE scope = ?`: the live members of one scope, in table order. -/
def scopeRows (T : TableOps α) (rows : List α) (sid : String) : List α :=
  rows.filter (fun r => T.scope r == sid)

/-- The ORDER BY comparison lifted to rows. -/
def rowLe (T : TableOps α) (a b : α) : Prop :=
  sqlLe (T.pos a) (T.created a) (T.pos b) (T.created b)

instance (T : TableOps α) : DecidableRel (rowLe T) := fun a b => by
  unfold rowLe
  infer_instance

/-- `SELECT * FROM t WHERE scope = ? ORDER BY position ASC, created_at ASC`:
the scope's members sorted by the SQL key (modelled with a structurally
recursive sort; SQLite guarantees only sortedness by the key). -/
def listOrdered (T : TableOps α) (rows : List α) (sid : String) : List α :=
  List.insertionSort (rowLe T) (scopeRows T rows sid)

/-- `SELECT id FROM t WHERE scope = ? ORDER BY position ASC, created_at ASC`. -/
def listOrderedIds (T : TableOps α) (rows : List α) (sid : String) : List String :=
  (listOrdered T rows sid).map T.rid

/-- `UPDATE t SET position = ?, updated_at = ? WHERE id = ?`. -/
def setPosById (T : TableOps α) (rows : List α) (i : String) (v : Int) (now : Nat) :
    List α :=
  rows.map fun r => if T.rid r == i then T.withPos r v now else r

/-- The per-row UPDATE loop `for (index, id) in ids.iter().enumerate()`
assigning `position := start + index` (`start = 0` everywhere except the
offset phase of `update_subtask`). -/
def writePositions (T : TableOps α) (rows : List α) (ids : List String)
    (start : Int) (now : Nat) : List α :=
  match ids with
  | [] => rows
  | i :: rest => writePositions T (setPosById T rows i start now) rest (start + 1) now

/-- `SELECT MAX(position) FROM t WHERE scope = ?` (`NULL` on an empty scope). -/
def sqlMaxPos (T : TableOps α) (rows : List α) (sid : String) : Option Int :=
  ((scopeRows T rows sid).map T.pos).max?

/-- The index clamp used by `move_column`, `move_card` and the reorder branch
of `update_subtask` (lib.rs:953-959, 1043-1049, 1083-1089, 265-271):
negative indices become `0`, indices above `len` become `len`. -/
def clampIndex (t : Int) (len : Nat) : Nat :=
  let c := if t < 0 then 0 else t
  if (len : Int) < c then len else c.toNat

/-- `normalize_column_positions_tx` (lib.rs:1705-1727): renumber a board's
columns to the dense 0-based sequence of their current listing order. -/
def normalize_column_positions_tx (db : Db) (board_id : String) (now : Nat) : Db :=
  { db with columns :=
      writePositions columnT db.columns (listOrderedIds columnT db.columns board_id) 0 now }

/-- `normalize_card_positions_tx` (lib.rs:1729-1751). -/
def normalize_card_positions_tx (db : Db) (column_id : String) (now : Nat) : Db :=
  { db with cards :=
      writePositions cardT db.cards (listOrderedIds cardT db.cards column_id) 0 now }

/-- `normalize_subtask_positions_tx` (lib.rs:1753-1775). -/
def normalize_subtask_positions_tx (db : Db) (card_id : String) (now : Nat) : Db :=
  { db with subtasks :=
      writePositions subtaskT db.subtasks (listOrderedIds subtaskT db.subtasks card_id) 0 now }

/-- `move_column` (lib.rs:921-979): reorder one board's columns.  Reads the
ordered listing, removes the moved id, clamps the target index, reinserts,
and writes positions `0..n-1` along the new order (no separate normalize
pass; the loop itself is the renumbering). -/
def move_column (db : Db) (board_id column_id : String) (target_index : Int)
    (now : Nat) : Except String Db :=
  let columns := listOrderedIds columnT db.columns board_id
  if columns.isEmpty then
    .error "Nenhuma coluna encontrada para o quadro informado."
  else
    match columns.findIdx? (fun i => i == column_id) with
    | none => .error "Coluna não encontrada."
    | some current_index =>
      let ids := columns.eraseIdx current_index
      let clamped_index := clampIndex target_index ids.length
      let ids := ids.insertIdx clamped_index column_id
      .ok { db with columns := writePositions columnT db.columns ids 0 now }

/-- `move_card` (lib.rs:981-1120): relocate a card within its column or into
another column of the same board.  Validations mirror lib.rs:995-1024; the
missing destination column surfaces as the `fetch_one` RowNotFound failure
(lib.rs:1014-1020 maps it to the `Falha ao carregar coluna de destino`
message before `ok_or_else` could run). -/
def move_card (db : Db) (board_id card_id from_column_id to_column_id : String)
    (target_index : Int) (now : Nat) : Except String Db :=
  match db.cards.find? (fun r => r.id == card_id) with
  | none => .error "Cartão não encontrado."
  | some card =>
    if card.board_id ≠ board_id then
      .error "O cartão não pertence ao quadro informado."
    else if card.column_id ≠ from_column_id then
      .error "O cartão não pertence à coluna de origem informada."
    else
      match db.columns.find? (fun c => c.id == to_column_id) with
      | none => .error "Falha ao carregar coluna de destino: no rows returned"
      | some target_column =>
        if target_column.board_id ≠ board_id then
          .error "A coluna de destino não pertence ao quadro informado."
        else
          let source_cards := listOrderedIds cardT db.cards from_column_id
          match source_cards.findIdx? (fun i => i == card_id) with
          | none => .error "Cartão não encontrado na coluna de origem."
          | some current_index =>
            let source_cards := source_cards.eraseIdx current_index
            if from_column_id = to_column_id then
              let clamped := clampIndex target_index source_cards.length
              let reordered := source_cards.insertIdx clamped card_id
              .ok { db with cards := writePositions cardT db.cards reordered 0 now }
            else
              -- renumber the source column after removing the card
              let cards₁ := writePositions cardT db.cards source_cards 0 now
              let target_cards := listOrderedIds cardT cards₁ to_column_id
              let clamped := clampIndex target_index target_cards.length
              let reordered := target_cards.insertIdx clamped card_id
              -- UPDATE kanban_cards SET column_id = ? WHERE id = ?
              let cards₂ := cards₁.map fun r =>
                if r.id == card_id then { r with column_id := to_column_id, updated_at := now }
                else r
              .ok { db with cards := writePositions cardT cards₂ reordered 0 now }

/-- Rust `str::trim`: strip leading and trailing whitespace.  Written by
structural recursion over the character list so that it evaluates inside the
kernel (core `String.trim` reduces through `Substring` offset arithmetic that
does not). -/
def strTrim (s : String) : String :=
  ⟨((s.data.dropWhile Char.isWhitespace).reverse.dropWhile
      Char.isWhitespace).reverse⟩

/-- `validate_string_input` (lib.rs:3052-3057); Rust `str::len` is the UTF-8
byte length. -/
def validate_string_input (input : String) (max_len : Nat) (field_name : String) :
    Except String Unit :=
  if max_len < input.utf8ByteSize then
    .error (field_name ++ " too long")
  else
    .ok ()

def isAsciiHexDigit (c : Char) : Bool :=
  c.isDigit || ('a' ≤ c && c ≤ 'f') || ('A' ≤ c && c ≤ 'F')

/-- `normalize_column_color` (lib.rs:1609-1629). -/
def normalize_column_color (color : Option String) : Except String (Option String) :=
  match color with
  | some value =>
    let trimmed := strTrim value
    if trimmed.isEmpty then .ok none
    else if trimmed.utf8ByteSize == 7 && trimmed.startsWith "#"
        && (trimmed.toList.drop 1).all isAsciiHexDigit then
      .ok (some trimmed)
    else
      .error "Cor da coluna inválida. Utilize o formato hexadecimal, por exemplo #6366F1."
  | none => .ok none

def ALLOWED_COLUMN_ICONS : List String :=
  ["Circle", "Play", "CheckCircle", "Loader", "AlarmClock", "Bolt", "Sparkles",
   "Target", "CalendarCheck", "ClipboardList", "Lightbulb", "Flag", "Timer",
   "Ship", "Kanban", "TrendingUp", "Zap", "Rocket", "BadgeCheck"]

/-- `normalize_column_icon` (lib.rs:1652-1662). -/
def normalize_column_icon (icon : Option String) : Except String (Option String) :=
  match (icon.map strTrim).filter (fun v => !v.isEmpty) with
  | some value =>
    if ALLOWED_COLUMN_ICONS.contains value then .ok (some value)
    else .error "Ícone inválido para a coluna."
  | none => .ok none

/-- `validate_priority` (lib.rs:1698-1703). -/
def validate_priority (priority : String) : Except String Unit :=
  if priority = "none" ∨ priority = "low" ∨ priority = "medium" ∨ priority = "high" then
    .ok ()
  else
    .error "Prioridade inválida. Utilize 'none', 'low', 'medium' ou 'high'."

/-- `normalize_optional_text` (lib.rs:1603-1607). -/
def normalize_optional_text (value : Option String) : Option String :=
  (value.map strTrim).filter (fun v => !v.isEmpty)

/-- `create_column` (lib.rs:2383-2473).  A requested position outside
`[0, max+1]` is replaced by `max+1` (append); a position already occupied on
the board is rejected (lib.rs:2428-2447).  The INSERT appends the new row;
the primary-key constraint is not modelled (theorems assume a fresh id). -/
def create_column (db : Db) (id board_id title : String) (position : Int)
    (color icon : Option String) (is_enabled : Option Bool)
    (wip_limit : Option Int) (now : Nat) : Except String Db :=
  let title := strTrim title
  if title.isEmpty then
    .error "O nome da coluna não pode ser vazio."
  else match validate_string_input title 200 "Nome da coluna" with
  | .error e => .error e
  | .ok _ =>
    match normalize_column_color color with
    | .error e => .error e
    | .ok normalized_color =>
      match normalize_column_icon icon with
      | .error e => .error e
      | .ok normalized_icon =>
        let normalized_is_enabled := is_enabled.getD true
        match (match wip_limit with
               | some limit =>
                 if limit < 1 then
                   Except.error "O limite WIP deve ser um número inteiro positivo."
                 else Except.ok (some limit)
               | none => Except.ok none) with
        | .error e => .error e
        | .ok normalized_wip_limit =>
          let max_position := (sqlMaxPos columnT db.columns board_id).getD (-1)
          let normalized_position :=
            if position < 0 ∨ max_position + 1 < position then max_position + 1 else position
          if (scopeRows columnT db.columns board_id).any
              (fun r => r.position == normalized_position) then
            .error "Já existe uma coluna na posição informada. Ajuste a ordem e tente novamente."
          else
            let row : ColumnRow :=
              { id := id, board_id := board_id, title := title,
                position := normalized_position, color := normalized_color,
                icon := normalized_icon, is_enabled := normalized_is_enabled,
                wip_limit := normalized_wip_limit, created_at := now, updated_at := now }
            .ok (normalize_column_positions_tx
              { db with columns := db.columns ++ [row] } board_id now)

/-- `delete_column` (lib.rs:2558-2615): refuses when unarchived cards remain,
otherwise deletes and renumbers the board's remaining columns. -/
def delete_column (db : Db) (id board_id : String) (now : Nat) : Except String Db :=
  match db.columns.find? (fun c => c.id == id) with
  | none => .error "Coluna não encontrada."
  | some col =>
    if col.board_id ≠ board_id then
      .error "A coluna não pertence ao quadro informado."
    else
      let card_count :=
        (db.cards.filter (fun r => r.column_id == id && r.archived_at == none)).length
      if 0 < card_count then
        .error "Não é possível excluir a coluna pois ela possui cartões."
      else
        let db := { db with columns := db.columns.filter (fun c => !(c.id == id)) }
        .ok (normalize_column_positions_tx db board_id now)

/-- `create_card` (lib.rs:2883-2986).  Same append-or-reject position policy
as `create_column`; the tag association step (lib.rs:2976-2979) touches only
the tag tables and is not modelled. -/
def create_card (db : Db) (id board_id column_id title : String)
    (description : Option String) (position : Int) (priority : String)
    (due_date : Option String) (now : Nat) : Except String Db :=
  let title := strTrim title
  if title.isEmpty then
    .error "O título do cartão não pode ser vazio."
  else match validate_string_input title 200 "Título do cartão" with
  | .error e => .error e
  | .ok _ =>
    match validate_priority priority with
    | .error e => .error e
    | .ok _ =>
      let normalized_description := normalize_optional_text description
      match db.columns.find? (fun c => c.id == column_id) with
      | none => .error "Falha ao validar coluna informada: no rows returned"
      | some col =>
        if col.board_id ≠ board_id then
          .error "A coluna informada não pertence ao quadro selecionado."
        else
          let max_position := (sqlMaxPos cardT db.cards column_id).getD (-1)
          let normalized_position :=
            if position < 0 ∨ max_position + 1 < position then max_position + 1 else position
          if (scopeRows cardT db.cards column_id).any
              (fun r => r.position == normalized_position) then
            .error "Já existe um cartão nesta posição desta coluna."
          else
            let row : CardRow :=
              { id := id, board_id := board_id, column_id := column_id, title := title,
                description := normalized_description, position := normalized_position,
                priority := priority, due_date := due_date.filter (fun v => !v.isEmpty),
                archived_at := none, created_at := now, updated_at := now }
            .ok (normalize_card_positions_tx
              { db with cards := db.cards ++ [row] } column_id now)

/-- `delete_card` (lib.rs:2988-3026). -/
def delete_card (db : Db) (id board_id : String) (now : Nat) : Except String Db :=
  match db.cards.find? (fun r => r.id == id) with
  | none => .error "Cartão não encontrado."
  | some card =>
    if card.board_id ≠ board_id then
      .error "O cartão não pertence ao quadro informado."
    else
      let db := { db with cards := db.cards.filter (fun r => !(r.id == id)) }
      .ok (normalize_card_positions_tx db card.column_id now)

/-- `create_subtask` (lib.rs:103-185): clamps the requested position into
`[0, count]` (`None` appends at `count`), shifts positions `>= target` up by
one, inserts, and renumbers. -/
def create_subtask (db : Db) (id board_id card_id title : String)
    (position : Option Int) (now : Nat) : Except String Db :=
  let title := strTrim title
  if title.isEmpty then
    .error "O título da subtask não pode ser vazio."
  else match validate_string_input title 200 "Título da subtask" with
  | .error e => .error e
  | .ok _ =>
    match db.cards.find? (fun r => r.id == card_id) with
    | none => .error "Falha ao carregar cartão: no rows returned"
    | some card =>
      if card.board_id ≠ board_id then
        .error "A subtask precisa pertencer ao mesmo quadro do cartão."
      else
        let existing_count : Int := (scopeRows subtaskT db.subtasks card_id).length
        let target_position := position.getD existing_count
        let target_position := if target_position < 0 then 0 else target_position
        let target_position :=
          if existing_count < target_position then existing_count else target_position
        -- UPDATE kanban_subtasks SET position = position + 1 WHERE card_id = ? AND position >= ?
        let shifted := db.subtasks.map fun r =>
          if r.card_id == card_id && target_position ≤ r.position then
            { r with position := r.position + 1, updated_at := now }
          else r
        let row : SubtaskRow :=
          { id := id, board_id := board_id, card_id := card_id, title := title,
            is_completed := false, position := target_position,
            created_at := now, updated_at := now }
        .ok (normalize_subtask_positions_tx
          { db with subtasks := shifted ++ [row] } card_id now)

/-- `delete_subtask` (lib.rs:309-350). -/
def delete_subtask (db : Db) (id board_id card_id : String) (now : Nat) :
    Except String Db :=
  match db.subtasks.find? (fun r => r.id == id) with
  | none => .error "Subtask não encontrada."
  | some st =>
    if st.board_id ≠ board_id then
      .error "A subtask não pertence ao quadro informado."
    else if st.card_id ≠ card_id then
      .error "A subtask não pertence ao cartão informado."
    else
      let db := { db with subtasks := db.subtasks.filter (fun r => !(r.id == id)) }
      .ok (normalize_subtask_positions_tx db card_id now)

/-- `update_subtask` (lib.rs:187-307): optional field updates, then — when a
target position is supplied — the reorder: remove the subtask from the
listing, clamp, reinsert, write positions `index + offset` (offset = list
length), and renumber back to `0..n-1`. -/
def update_subtask (db : Db) (id board_id card_id : String)
    (title : Option String) (is_completed : Option Bool)
    (target_position : Option Int) (now : Nat) : Except String Db :=
  match db.subtasks.find? (fun r => r.id == id) with
  | none => .error "Subtask não encontrada."
  | some st =>
    if st.board_id ≠ board_id then
      .error "A subtask não pertence ao quadro informado."
    else if st.card_id ≠ card_id then
      .error "A subtask não pertence ao cartão informado."
    else
      match (match title with
             | some t =>
               let trimmed := strTrim t
               if trimmed.isEmpty then
                 Except.error "O título da subtask não pode ser vazio."
               else match validate_string_input trimmed 200 "Título da subtask" with
                 | .error e => Except.error e
                 | .ok _ => Except.ok (some trimmed)
             | none => Except.ok none) with
      | .error e => .error e
      | .ok trimmed_title =>
        let has_changes := trimmed_title.isSome || is_completed.isSome
        -- UPDATE kanban_subtasks SET [title] [is_completed] WHERE id = ? AND card_id = ?
        let subtasks₁ :=
          if has_changes then
            db.subtasks.map fun r =>
              if r.id == id && r.card_id == card_id then
                { r with title := trimmed_title.getD r.title,
                         is_completed := is_completed.getD r.is_completed,
                         updated_at := now }
              else r
          else db.subtasks
        let db := { db with subtasks := subtasks₁ }
        match target_position with
        | none => .ok db
        | some tp =>
          let subtask_ids := listOrderedIds subtaskT db.subtasks card_id
          match subtask_ids.findIdx? (fun i => i == id) with
          | none => .error "Subtask não encontrada."
          | some current_index =>
            let ordered := subtask_ids.eraseIdx current_index
            let clamped := clampIndex tp ordered.length
            let ordered := ordered.insertIdx clamped id
            let offset : Int := ordered.length
            let db :=
              { db with subtasks := writePositions subtaskT db.subtasks ordered offset now }
            .ok (normalize_subtask_positions_tx db card_id now)

/-! ### Derived notions used by the specification statements -/

/-- Lookup giving the position value a `writePositions` pass assigns to the
id `i` when the write list is `ids` starting at value `s`. -/
def idxVal (ids : List String) (s : Int) (i : String) : Option Int :=
  match ids with
  | [] => none
  | j :: rest => if j == i then some s else idxVal rest (s + 1) i

/-- The effect of one `writePositions` pass on a single row. -/
def updRow (T : TableOps α) (ids : List String) (s : Int) (now : Nat) (r : α) : α :=
  match idxVal ids s (T.rid r) with
  | some v => T.withPos r v now
  | none => r

/-- Rows of `L` stamped with consecutive positions `s, s+1, ...`. -/
def stampFrom (T : TableOps α) (now : Nat) (s : Int) : List α → List α
  | [] => []
  | r :: rest => T.withPos r s now :: stampFrom T now (s + 1) rest

/-- `[s, s+1, ..., s+n-1]` as integers. -/
def intRange (s : Int) : Nat → List Int
  | 0 => []
  | n + 1 => s :: intRange (s + 1) n

/-- The density invariant for one multiset of stored positions: it is exactly
`{0, 1, ..., n-1}`. -/
def densePositions (l : List Int) (n : Nat) : Prop :=
  l.Perm (intRange 0 n)

/-- A scope satisfies the density invariant: the positions of its live
members are exactly `0..n-1`, dense, zero-based, with no duplicates. -/
def scopeDense (T : TableOps α) (rows : List α) (sid : String) : Prop :=
  densePositions ((scopeRows T rows sid).map T.pos) (scopeRows T rows sid).length

instance (T : TableOps α) (rows : List α) (sid : String) :
    Decidable (scopeDense T rows sid) := by
  unfold scopeDense densePositions; infer_instance

/-- The observable ordering state of a table: each row's id with its stored
position. -/
def posPairs (T : TableOps α) (rows : List α) : List (String × Int) :=
  rows.map fun r => (T.rid r, T.pos r)

/-- Modelled from the spec (refinement reference for the two-phase subtask
reorder): directly writing the dense 0-based index of each subtask in the
reordered sequence, with no offset phase and no further normalization. -/
def directSubtaskRenumber (db : Db) (ordered : List String) (now : Nat) : Db :=
  { db with subtasks := writePositions subtaskT db.subtasks ordered 0 now }

/-! ### Failure-injecting transaction model

Used for the atomicity claim: the same statement sequence as `move_card`,
where every SQL statement is numbered and an adversarial oracle may turn any
statement into a storage failure.  The transaction's working state is only
published at commit time (`runTx` returning `.ok`), mirroring the single
`tx.commit()` at the end of the Rust command; every error path leaves the
committed state untouched. -/

/-- A transaction in progress: uncommitted working state and the number of
statements executed so far. -/
structure Tx where
  db : Db
  n : Nat

/-- Transaction computations under a failure oracle. -/
def TxM (σ : Type) : Type := (Nat → Bool) → Tx → Except String (σ × Tx)

/-- Sequencing of transaction steps: a failed step aborts the rest. -/
def TxM.bind {σ τ : Type} (m : TxM σ) (f : σ → TxM τ) : TxM τ :=
  fun oracle t =>
    match m oracle t with
    | .error e => .error e
    | .ok (a, t') => f a oracle t'

def TxM.done : TxM Unit := fun _ t => .ok ((), t)

/-- One SQL statement: reads a value and/or rewrites the working state; the
oracle may instead make it fail with a storage error. -/
def txStmt (f : Db → σ) (w : Db → Db) (err : String) : TxM σ :=
  fun oracle t =>
    if oracle t.n then .error err
    else .ok (f t.db, { db := w t.db, n := t.n + 1 })

def txRead (f : Db → σ) (err : String) : TxM σ := txStmt f id err

def txWrite (w : Db → Db) (err : String) : TxM Unit := txStmt (fun _ => ()) w err

/-- A validation failure: aborts without a statement. -/
def txFail (e : String) : TxM σ := fun _ _ => .error e

/-- Run a transaction from a committed state; `.ok` is the commit. -/
def runTx (m : TxM Unit) (oracle : Nat → Bool) (db : Db) : Except String Db :=
  match m oracle { db := db, n := 0 } with
  | .error e => .error e
  | .ok (_, t) => .ok t.db

/-- The state a caller observes after the transaction: the new state on
commit, the original state on abort (rollback). -/
def txCommitted (db : Db) (r : Except String Db) : Db :=
  match r with
  | .ok d => d
  | .error _ => db

/-- The per-row UPDATE loop of `move_card` as individual statements. -/
def txWriteCardPositions (ids : List String) (start : Int) (now : Nat) : TxM Unit :=
  match ids with
  | [] => TxM.done
  | i :: rest =>
    TxM.bind
      (txWrite (fun db => { db with cards := setPosById cardT db.cards i start now })
        "Falha ao atualizar posições dos cartões")
      (fun _ => txWriteCardPositions rest (start + 1) now)

/-- `move_card` (lib.rs:981-1120) with its statements numbered for failure
injection: the same reads, validations and writes as `move_card`, one
statement per SQL query, commit last. -/
def move_card_tx (board_id card_id from_column_id to_column_id : String)
    (target_index : Int) (now : Nat) : TxM Unit :=
  TxM.bind
    (txRead (fun db => db.cards.find? (fun r => r.id == card_id))
      "Falha ao carregar cartão")
    fun card_info =>
  match card_info with
  | none => txFail "Cartão não encontrado."
  | some card =>
    if card.board_id ≠ board_id then
      txFail "O cartão não pertence ao quadro informado."
    else if card.column_id ≠ from_column_id then
      txFail "O cartão não pertence à coluna de origem informada."
    else
      TxM.bind
        (txRead (fun db => db.columns.find? (fun c => c.id == to_column_id))
          "Falha ao carregar coluna de destino")
        fun target_column =>
      match target_column with
      | none => txFail "Falha ao carregar coluna de destino: no rows returned"
      | some target_column =>
        if target_column.board_id ≠ board_id then
          txFail "A coluna de destino não pertence ao quadro informado."
        else
          TxM.bind
            (txRead (fun db => listOrderedIds cardT db.cards from_column_id)
              "Falha ao carregar cartões da coluna de origem")
            fun source_cards =>
          match source_cards.findIdx? (fun i => i == card_id) with
          | none => txFail "Cartão não encontrado na coluna de origem."
          | some current_index =>
            let source_cards := source_cards.eraseIdx current_index
            if from_column_id = to_column_id then
              let clamped := clampIndex target_index source_cards.length
              let reordered := source_cards.insertIdx clamped card_id
              txWriteCardPositions reordered 0 now
            else
              TxM.bind (txWriteCardPositions source_cards 0 now) fun _ =>
              TxM.bind
                (txRead (fun db => listOrderedIds cardT db.cards to_column_id)
                  "Falha ao carregar cartões da coluna de destino")
                fun target_cards =>
              let clamped := clampIndex target_index target_cards.length
              let reordered := target_cards.insertIdx clamped card_id
              TxM.bind
                (txWrite (fun db => { db with cards := db.cards.map fun r =>
                    if r.id == card_id then
                      { r with column_id := to_column_id, updated_at := now }
                    else r })
                  "Falha ao mover cartão para coluna de destino")
                fun _ =>
              txWriteCardPositions reordered 0 now

/-! ### Concrete fixtures for witnesses and counterexamples -/

/-- A column row with defaulted payload fields. -/
def mkCol (i b : String) (p : Int) (c : Nat) : ColumnRow :=
  { id := i, board_id := b, title := i, position := p, color := none, icon := none,
    is_enabled := true, wip_limit := none, created_at := c, updated_at := c }

/-- A card row with defaulted payload fields. -/
def mkCard (i b cid : String) (p : Int) (c : Nat) : CardRow :=
  { id := i, board_id := b, column_id := cid, title := i, description := none,
    position := p, priority := "none", due_date := none, archived_at := none,
    created_at := c, updated_at := c }

/-- A subtask row with defaulted payload fields. -/
def mkSub (i b cid : String) (p : Int) (c : Nat) : SubtaskRow :=
  { id := i, board_id := b, card_id := cid, title := i, is_completed := false,
    position := p, created_at := c, updated_at := c }

/-- Board `B` with columns `c1`, `c2`; cards `a,b,c` in `c1` and `d,e` in
`c2`; subtasks `s0,s1,s2` on card `a` (the spec's running scenario). -/
def dbFix : Db :=
  { columns := [mkCol "c1" "B" 0 0, mkCol "c2" "B" 1 0],
    cards := [mkCard "a" "B" "c1" 0 0, mkCard "b" "B" "c1" 1 1, mkCard "c" "B" "c1" 2 2,
              mkCard "d" "B" "c2" 0 3, mkCard "e" "B" "c2" 1 4],
    subtasks := [mkSub "s0" "B" "a" 0 0, mkSub "s1" "B" "a" 1 1, mkSub "s2" "B" "a" 2 2] }

/-- A single-column board used by the create counterexample. -/
def dbOneCol : Db :=
  { columns := [mkCol "c1" "B" 0 0], cards := [], subtasks := [] }

/-- A scope with messy (gapped, duplicated, negative) positions. -/
def dbMessy : Db :=
  { columns := [],
    cards := [mkCard "x" "B" "c1" 7 0, mkCard "y" "B" "c1" 7 1, mkCard "z" "B" "c1" (-2) 5],
    subtasks := [] }

/-! ## Core lemmas about the write pass and the ordered listing -/

theorem idxVal_eq_none : ∀ {ids : List String} (s : Int) {i : String},
    i ∉ ids → idxVal ids s i = none
  | [], _, _, _ => rfl
  | j :: rest, s, i, h => by
    have hji : (j == i) = false := by
      simp only [beq_eq_false_iff_ne]
      rintro rfl
      exact h (List.mem_cons_self _ _)
    simp only [idxVal, hji, Bool.false_eq_true, if_false]
    exact idxVal_eq_none (s + 1) (fun hm => h (List.mem_cons_of_mem _ hm))

theorem rid_updRow (T : TableOps α) (ids : List String) (s : Int) (now : Nat) (r : α) :
    T.rid (updRow T ids s now r) = T.rid r := by
  unfold updRow
  cases idxVal ids s (T.rid r) <;> simp [T.rid_withPos]

theorem scope_updRow (T : TableOps α) (ids : List String) (s : Int) (now : Nat) (r : α) :
    T.scope (updRow T ids s now r) = T.scope r := by
  unfold updRow
  cases idxVal ids s (T.rid r) <;> simp [T.scope_withPos]

theorem created_updRow (T : TableOps α) (ids : List String) (s : Int) (now : Nat) (r : α) :
    T.created (updRow T ids s now r) = T.created r := by
  unfold updRow
  cases idxVal ids s (T.rid r) <;> simp [T.created_withPos]

theorem updRow_of_not_mem (T : TableOps α) {ids : List String} (s : Int) (now : Nat)
    {r : α} (h : T.rid r ∉ ids) : updRow T ids s now r = r := by
  unfold updRow
  rw [idxVal_eq_none s h]

theorem writePositions_eq_map (T : TableOps α) :
    ∀ {ids : List String} (rows : List α) (s : Int) (now : Nat), ids.Nodup →
      writePositions T rows ids s now = rows.map (updRow T ids s now)
  | [], rows, s, now, _ => by
    have hid : ∀ r ∈ rows, updRow T [] s now r = r :=
      fun r _ => updRow_of_not_mem T s now (List.not_mem_nil _)
    rw [writePositions]
    exact ((List.map_congr_left hid).trans (List.map_id' rows)).symm
  | i :: rest, rows, s, now, h => by
    have hni : i ∉ rest := (List.nodup_cons.mp h).1
    have hrest : rest.Nodup := (List.nodup_cons.mp h).2
    rw [writePositions, writePositions_eq_map T _ _ _ hrest, setPosById, List.map_map]
    apply List.map_congr_left
    intro r _
    by_cases hri : T.rid r = i
    · have h1 : (T.rid r == i) = true := beq_iff_eq.mpr hri
      have h2 : (i == T.rid r) = true := beq_iff_eq.mpr hri.symm
      have h3 : idxVal rest (s + 1) i = none := idxVal_eq_none _ hni
      simp [updRow, idxVal, h1, h2, h3, hri, T.rid_withPos]
    · have h1 : (T.rid r == i) = false := beq_eq_false_iff_ne.mpr hri
      have h2 : (i == T.rid r) = false := beq_eq_false_iff_ne.mpr (Ne.symm hri)
      simp [updRow, idxVal, h1, h2, hri]

theorem scopeRows_writePositions (T : TableOps α) {ids : List String}
    (rows : List α) (sid : String) (s : Int) (now : Nat) (h : ids.Nodup) :
    scopeRows T (writePositions T rows ids s now) sid =
      (scopeRows T rows sid).map (updRow T ids s now) := by
  rw [writePositions_eq_map T rows s now h]
  unfold scopeRows
  rw [List.filter_map]
  congr 1
  apply List.filter_congr
  intro r _
  simp [Function.comp, scope_updRow]

theorem map_updRow_self (T : TableOps α) :
    ∀ (L : List α) (s : Int) (now : Nat), (L.map T.rid).Nodup →
      L.map (updRow T (L.map T.rid) s now) = stampFrom T now s L
  | [], _, _, _ => rfl
  | r :: rest, s, now, h => by
    rw [List.map_cons] at h
    have hni : T.rid r ∉ rest.map T.rid := (List.nodup_cons.mp h).1
    have hrest : (rest.map T.rid).Nodup := (List.nodup_cons.mp h).2
    have hhead : updRow T (T.rid r :: rest.map T.rid) s now r = T.withPos r s now := by
      simp [updRow, idxVal]
    have htail : rest.map (updRow T (T.rid r :: rest.map T.rid) s now)
        = stampFrom T now (s + 1) rest := by
      rw [← map_updRow_self T rest (s + 1) now hrest]
      apply List.map_congr_left
      intro x hx
      have hne : (T.rid r == T.rid x) = false := by
        apply beq_eq_false_iff_ne.mpr
        intro hEq
        exact hni (hEq ▸ List.mem_map_of_mem T.rid hx)
      simp only [updRow, idxVal, hne, Bool.false_eq_true, if_false]
    simp only [List.map_cons, stampFrom, hhead, htail]

theorem length_stampFrom (T : TableOps α) (now : Nat) :
    ∀ (s : Int) (L : List α), (stampFrom T now s L).length = L.length
  | _, [] => rfl
  | s, _ :: rest => by simp [stampFrom, length_stampFrom T now (s + 1) rest]

theorem map_rid_stampFrom (T : TableOps α) (now : Nat) :
    ∀ (s : Int) (L : List α), (stampFrom T now s L).map T.rid = L.map T.rid
  | _, [] => rfl
  | s, r :: rest => by
    simp [stampFrom, T.rid_withPos, map_rid_stampFrom T now (s + 1) rest]

theorem map_scope_stampFrom (T : TableOps α) (now : Nat) :
    ∀ (s : Int) (L : List α), (stampFrom T now s L).map T.scope = L.map T.scope
  | _, [] => rfl
  | s, r :: rest => by
    simp [stampFrom, T.scope_withPos, map_scope_stampFrom T now (s + 1) rest]

theorem map_pos_stampFrom (T : TableOps α) (now : Nat) :
    ∀ (s : Int) (L : List α), (stampFrom T now s L).map T.pos = intRange s L.length
  | _, [] => rfl
  | s, r :: rest => by
    simp [stampFrom, intRange, T.pos_withPos, map_pos_stampFrom T now (s + 1) rest]

theorem length_intRange : ∀ (s : Int) (n : Nat), (intRange s n).length = n
  | _, 0 => rfl
  | s, n + 1 => by simp [intRange, length_intRange (s + 1) n]

theorem le_of_mem_intRange : ∀ {s : Int} {n : Nat} {x : Int}, x ∈ intRange s n → s ≤ x
  | _, 0, _, h => absurd h (List.not_mem_nil _)
  | s, n + 1, x, h => by
    rcases List.mem_cons.mp h with rfl | h'
    · exact le_refl _
    · exact le_trans (by omega) (le_of_mem_intRange h')

theorem pairwise_lt_intRange : ∀ (s : Int) (n : Nat), (intRange s n).Pairwise (· < ·)
  | _, 0 => List.Pairwise.nil
  | s, n + 1 => by
    refine List.Pairwise.cons (fun x hx => ?_) (pairwise_lt_intRange (s + 1) n)
    have := le_of_mem_intRange hx
    omega

theorem nodup_intRange (s : Int) (n : Nat) : (intRange s n).Nodup :=
  (pairwise_lt_intRange s n).imp ne_of_lt

theorem pairwise_pos_lt_stampFrom (T : TableOps α) (now : Nat) (s : Int) (L : List α) :
    (stampFrom T now s L).Pairwise (fun a b => T.pos a < T.pos b) := by
  have h := pairwise_lt_intRange s L.length
  rw [← map_pos_stampFrom T now s L] at h
  exact List.pairwise_map.mp h

theorem rowLe_trans (T : TableOps α) (a b c : α)
    (h1 : rowLe T a b) (h2 : rowLe T b c) : rowLe T a c := by
  unfold rowLe sqlLe at *
  rcases h1 with h1 | ⟨h1, h1'⟩ <;> rcases h2 with h2 | ⟨h2, h2'⟩
  · exact Or.inl (h1.trans h2)
  · exact Or.inl (h2 ▸ h1)
  · exact Or.inl (h1 ▸ h2)
  · exact Or.inr ⟨h1.trans h2, h1'.trans h2'⟩

theorem rowLe_total (T : TableOps α) (a b : α) : rowLe T a b ∨ rowLe T b a := by
  unfold rowLe sqlLe
  rcases lt_trichotomy (T.pos a) (T.pos b) with h | h | h
  · exact Or.inl (Or.inl h)
  · rcases le_total (T.created a) (T.created b) with hc | hc
    · exact Or.inl (Or.inr ⟨h, hc⟩)
    · exact Or.inr (Or.inr ⟨h.symm, hc⟩)
  · exact Or.inr (Or.inl h)

theorem listOrdered_perm (T : TableOps α) (rows : List α) (sid : String) :
    (listOrdered T rows sid).Perm (scopeRows T rows sid) :=
  List.perm_insertionSort _ _

theorem pairwise_rowLe_listOrdered (T : TableOps α) (rows : List α) (sid : String) :
    (listOrdered T rows sid).Pairwise (rowLe T) := by
  haveI : IsTotal α (rowLe T) := ⟨rowLe_total T⟩
  haveI : IsTrans α (rowLe T) := ⟨rowLe_trans T⟩
  exact List.sorted_insertionSort (rowLe T) _

theorem eq_of_perm_of_pairwise_posLt (T : TableOps α) {l₁ l₂ : List α}
    (hp : l₁.Perm l₂)
    (h₁ : l₁.Pairwise fun a b => T.pos a < T.pos b)
    (h₂ : l₂.Pairwise fun a b => T.pos a < T.pos b) : l₁ = l₂ := by
  haveI : IsAntisymm α fun a b => T.pos a < T.pos b :=
    ⟨fun a b hab hba => absurd (hab.trans hba) (lt_irrefl _)⟩
  exact List.eq_of_perm_of_sorted hp h₁ h₂

theorem pairwise_posLt_of_rowLe (T : TableOps α) {l : List α}
    (h : l.Pairwise (rowLe T))
    (hn : (l.map T.pos).Nodup) : l.Pairwise fun a b => T.pos a < T.pos b := by
  have hne : l.Pairwise fun a b => T.pos a ≠ T.pos b := List.pairwise_map.mp hn
  refine (h.and hne).imp ?_
  rintro a b ⟨hab, hne'⟩
  rcases hab with h' | ⟨h', _⟩
  · exact h'
  · exact absurd h' hne'

/-- After writing positions `s, s+1, ...` along a duplicate-free list `L` of
rows forming the members of scope `sid` (up to permutation), those members
are exactly the rows of `L` stamped with consecutive positions. -/
theorem scopeRows_writePositions_perm (T : TableOps α) {rows L : List α}
    {sid : String} (s : Int) (now : Nat)
    (hids : (L.map T.rid).Nodup)
    (hperm : (scopeRows T rows sid).Perm L) :
    (scopeRows T (writePositions T rows (L.map T.rid) s now) sid).Perm
      (stampFrom T now s L) := by
  rw [scopeRows_writePositions T rows sid s now hids]
  exact (map_updRow_self T L s now hids) ▸ (hperm.map _)

/-- The ordered listing after such a write pass is exactly `L` (stamped):
the stored positions are strictly increasing along `L`, so the SQL
`ORDER BY position, created_at` reproduces `L` itself. -/
theorem listOrdered_writePositions (T : TableOps α) {rows L : List α}
    {sid : String} (s : Int) (now : Nat)
    (hids : (L.map T.rid).Nodup)
    (hperm : (scopeRows T rows sid).Perm L) :
    listOrdered T (writePositions T rows (L.map T.rid) s now) sid =
      stampFrom T now s L := by
  have hmem := scopeRows_writePositions_perm T s now hids hperm
  have hperm2 : (listOrdered T (writePositions T rows (L.map T.rid) s now) sid).Perm
      (stampFrom T now s L) :=
    (listOrdered_perm T _ sid).trans hmem
  have hstamp : ((stampFrom T now s L).map T.pos).Nodup := by
    rw [map_pos_stampFrom]
    exact nodup_intRange s L.length
  have hnodup : ((listOrdered T (writePositions T rows (L.map T.rid) s now) sid).map
      T.pos).Nodup := (hperm2.map T.pos).nodup_iff.mpr hstamp
  exact eq_of_perm_of_pairwise_posLt T hperm2
    (pairwise_posLt_of_rowLe T (pairwise_rowLe_listOrdered T _ sid) hnodup)
    (pairwise_pos_lt_stampFrom T now s L)

/-- A write pass along a full member listing restores the density
invariant, whatever the previous positions were. -/
theorem scopeDense_writePositions (T : TableOps α) {rows L : List α}
    {sid : String} (now : Nat)
    (hids : (L.map T.rid).Nodup)
    (hperm : (scopeRows T rows sid).Perm L) :
    scopeDense T (writePositions T rows (L.map T.rid) 0 now) sid := by
  unfold scopeDense densePositions
  have hmem := scopeRows_writePositions_perm T 0 now hids hperm
  have hlen : (scopeRows T (writePositions T rows (L.map T.rid) 0 now) sid).length
      = L.length := by
    rw [hmem.length_eq, length_stampFrom]
  rw [hlen]
  exact (hmem.map T.pos).trans (by rw [map_pos_stampFrom T now 0 L])

/-- Primary-key uniqueness restricts to every scope. -/
theorem nodup_map_rid_scopeRows (T : TableOps α) {rows : List α} (sid : String)
    (h : (rows.map T.rid).Nodup) : ((scopeRows T rows sid).map T.rid).Nodup := by
  have hs : ((scopeRows T rows sid).map T.rid).Sublist (rows.map T.rid) :=
    (List.filter_sublist rows).map T.rid
  exact hs.nodup h

theorem nodup_map_rid_listOrdered (T : TableOps α) {rows : List α} (sid : String)
    (h : (rows.map T.rid).Nodup) : ((listOrdered T rows sid).map T.rid).Nodup :=
  (((listOrdered_perm T rows sid).map T.rid).nodup_iff).mpr
    (nodup_map_rid_scopeRows T sid h)

/-- Renumbering one scope along its own listing yields density — the heart
of every `normalize_*_positions_tx`. -/
theorem scopeDense_normalizePass (T : TableOps α) {rows : List α} (sid : String)
    (now : Nat) (h : (rows.map T.rid).Nodup) :
    scopeDense T (writePositions T rows (listOrderedIds T rows sid) 0 now) sid := by
  unfold listOrderedIds
  exact scopeDense_writePositions T now (nodup_map_rid_listOrdered T sid h)
    (listOrdered_perm T rows sid).symm

theorem map_rid_setPosById (T : TableOps α) (rows : List α) (i : String) (v : Int)
    (now : Nat) : (setPosById T rows i v now).map T.rid = rows.map T.rid := by
  unfold setPosById
  rw [List.map_map]
  apply List.map_congr_left
  intro r _
  by_cases h : T.rid r = i <;> simp [h, T.rid_withPos]

theorem map_rid_writePositions (T : TableOps α) :
    ∀ (ids : List String) (rows : List α) (s : Int) (now : Nat),
      (writePositions T rows ids s now).map T.rid = rows.map T.rid
  | [], _, _, _ => rfl
  | i :: rest, rows, s, now => by
    rw [writePositions, map_rid_writePositions T rest _ (s + 1) now,
      map_rid_setPosById]

theorem map_eraseIdx (f : α → β) : ∀ (l : List α) (k : Nat),
    (l.eraseIdx k).map f = (l.map f).eraseIdx k
  | [], _ => rfl
  | _ :: _, 0 => rfl
  | a :: l, k + 1 => by
    simp [List.eraseIdx, map_eraseIdx f l k]

theorem map_insertIdx (f : α → β) : ∀ (l : List α) (k : Nat) (x : α),
    (l.insertIdx k x).map f = (l.map f).insertIdx k (f x)
  | _, 0, _ => rfl
  | [], k + 1, x => rfl
  | a :: l, k + 1, x => by
    simp [List.insertIdx_succ_cons, map_insertIdx f l k x]

theorem cons_eraseIdx_perm : ∀ (l : List α) (k : Nat) (h : k < l.length),
    l.Perm (l.get ⟨k, h⟩ :: l.eraseIdx k)
  | a :: l, 0, _ => List.Perm.refl _
  | a :: l, k + 1, h => by
    have hk : k < l.length := by simpa using h
    have h1 : l.Perm (l.get ⟨k, hk⟩ :: l.eraseIdx k) := cons_eraseIdx_perm l k hk
    exact (h1.cons a).trans (List.Perm.swap _ _ _)

theorem not_mem_eraseIdx_of_nodup {l : List α} (hl : l.Nodup) (k : Nat)
    (h : k < l.length) : l.get ⟨k, h⟩ ∉ l.eraseIdx k := by
  have := hl.perm (cons_eraseIdx_perm l k h)
  exact (List.nodup_cons.mp this).1

theorem findIdx?_some_spec {β : Type} {p : β → Bool} {l : List β} {k : Nat}
    (h : l.findIdx? p = some k) : ∃ h' : k < l.length, p (l.get ⟨k, h'⟩) = true := by
  obtain ⟨hlt, hidx⟩ := List.findIdx?_eq_some_iff_findIdx_eq.mp h
  refine ⟨hlt, ?_⟩
  have hw : List.findIdx p l < l.length := by rw [hidx]; exact hlt
  have hp := @List.findIdx_getElem _ p l hw
  simp only [List.get_eq_getElem]
  simp only [hidx] at hp
  exact hp

theorem idxVal_shift : ∀ (ids : List String) (s : Int) (i : String),
    idxVal ids s i = (idxVal ids 0 i).map (fun v => v + s)
  | [], _, _ => rfl
  | j :: rest, s, i => by
    by_cases h : (j == i) = true
    · simp [idxVal, h]
    · simp only [idxVal, h, Bool.false_eq_true, if_false]
      rw [idxVal_shift rest (s + 1) i, idxVal_shift rest (0 + 1) i, Option.map_map]
      cases idxVal rest 0 i with
      | none => rfl
      | some v =>
        simp only [Option.map_some', Function.comp_apply, Option.some.injEq]
        omega

theorem idxVal_eq_some : ∀ {ids : List String} {s : Int} {i : String} {v : Int},
    idxVal ids s i = some v →
      ∃ (k : Nat) (h : k < ids.length), ids.get ⟨k, h⟩ = i ∧ v = s + k
  | [], _, _, _, h => by simp [idxVal] at h
  | j :: rest, s, i, v, h => by
    by_cases hj : j == i
    · simp only [idxVal, hj, if_true] at h
      cases h
      exact ⟨0, by simp, beq_iff_eq.mp hj, by simp⟩
    · simp only [idxVal, hj, Bool.false_eq_true, if_false] at h
      obtain ⟨k, hk, hget, hv⟩ := idxVal_eq_some h
      exact ⟨k + 1, by simpa using hk, by simpa using hget, by omega⟩

theorem idxVal_get : ∀ {ids : List String}, ids.Nodup → ∀ (s : Int) {k : Nat}
    (h : k < ids.length), idxVal ids s (ids.get ⟨k, h⟩) = some (s + k)
  | [], _, _, k, h => absurd h (by simp)
  | j :: rest, hn, s, 0, h => by simp [idxVal]
  | j :: rest, hn, s, k + 1, h => by
    have hk : k < rest.length := by simpa using h
    have hmem : rest.get ⟨k, hk⟩ ∈ rest := List.get_mem rest k hk
    have hne : (j == rest.get ⟨k, hk⟩) = false :=
      beq_eq_false_iff_ne.mpr fun hEq =>
        (List.nodup_cons.mp hn).1 (by rw [hEq]; exact hmem)
    simp only [List.get_cons_succ, idxVal, hne, Bool.false_eq_true, if_false]
    rw [idxVal_get (List.nodup_cons.mp hn).2 (s + 1) hk]
    congr 1
    omega

theorem get_intRange : ∀ (s : Int) {n k : Nat} (h : k < n),
    (intRange s n).get ⟨k, by rw [length_intRange]; exact h⟩ = s + k
  | s, n + 1, 0, _ => by simp [intRange]
  | s, n + 1, k + 1, h => by
    have hk : k < n := by omega
    simp only [intRange, List.get_cons_succ]
    rw [get_intRange (s + 1) hk]
    omega

theorem intRange_append : ∀ (s : Int) (m k : Nat),
    intRange s m ++ intRange (s + m) k = intRange s (m + k)
  | s, 0, k => by simp [intRange]
  | s, m + 1, k => by
    have hcast : s + ((m + 1 : Nat) : Int) = s + 1 + (m : Int) := by push_cast; omega
    rw [show m + 1 + k = (m + k) + 1 from by omega]
    simp only [intRange, List.cons_append]
    rw [hcast, intRange_append (s + 1) m k]

theorem clampIndex_of_neg {t : Int} (len : Nat) (h : t < 0) : clampIndex t len = 0 := by
  simp [clampIndex, h, if_pos]

theorem clampIndex_zero (len : Nat) : clampIndex 0 len = 0 := by
  simp [clampIndex]

theorem clampIndex_of_gt {t : Int} {len : Nat} (h : (len : Int) < t) :
    clampIndex t len = len := by
  have ht : ¬ t < 0 := by omega
  simp [clampIndex, ht, h]

theorem clampIndex_coe_self (len : Nat) : clampIndex (len : Int) len = len := by
  unfold clampIndex
  have h0 : ¬ ((len : Int) < 0) := by omega
  have h1 : ¬ ((len : Int) < (len : Int)) := by omega
  simp only [h0, if_false, h1]
  omega

theorem clampIndex_le (t : Int) (len : Nat) : clampIndex t len ≤ len := by
  by_cases h : t < 0
  · rw [clampIndex_of_neg len h]
    omega
  · by_cases h2 : (len : Int) < t
    · rw [clampIndex_of_gt h2]
    · unfold clampIndex
      simp only [h, if_false, h2]
      omega

theorem clampIndex_of_mem {t : Int} {len : Nat} (h0 : 0 ≤ t) (h1 : t ≤ (len : Int)) :
    (clampIndex t len : Int) = t := by
  have ht : ¬ t < 0 := by omega
  have h2 : ¬ (len : Int) < t := by omega
  simp [clampIndex, ht, h2]
  omega

theorem insertIdx_eraseIdx_self : ∀ (l : List α) (k : Nat) (h : k < l.length),
    (l.eraseIdx k).insertIdx k (l.get ⟨k, h⟩) = l
  | a :: l, 0, _ => rfl
  | a :: l, k + 1, h => by
    have hk : k < l.length := by simpa using h
    have ih := insertIdx_eraseIdx_self l k hk
    simp only [List.get_eq_getElem] at ih
    simp [List.eraseIdx, List.insertIdx_succ_cons, ih]

theorem eq_of_perm_of_pairwise_lt_int {l₁ l₂ : List Int} (hp : l₁.Perm l₂)
    (h₁ : l₁.Pairwise (· < ·)) (h₂ : l₂.Pairwise (· < ·)) : l₁ = l₂ := by
  haveI : IsAntisymm Int (· < ·) :=
    ⟨fun a b hab hba => absurd (hab.trans hba) (lt_irrefl _)⟩
  exact List.eq_of_perm_of_sorted hp h₁ h₂

theorem mem_rows_of_mem_scopeRows (T : TableOps α) {rows : List α} {sid : String}
    {r : α} (h : r ∈ scopeRows T rows sid) : r ∈ rows :=
  (List.mem_filter.mp h).1

theorem scope_of_mem_scopeRows (T : TableOps α) {rows : List α} {sid : String}
    {r : α} (h : r ∈ scopeRows T rows sid) : T.scope r = sid :=
  beq_iff_eq.mp (List.mem_filter.mp h).2

theorem mem_rows_of_mem_listOrdered (T : TableOps α) {rows : List α} {sid : String}
    {r : α} (h : r ∈ listOrdered T rows sid) : r ∈ rows :=
  mem_rows_of_mem_scopeRows T ((listOrdered_perm T rows sid).mem_iff.mp h)

/-- In a dense scope, the ordered listing stores positions `0..n-1` pointwise:
the `j`-th listed member has position exactly `j`. -/
theorem map_pos_listOrdered_of_dense (T : TableOps α) {rows : List α} {sid : String}
    (h : scopeDense T rows sid) :
    (listOrdered T rows sid).map T.pos = intRange 0 (scopeRows T rows sid).length := by
  have hperm : ((listOrdered T rows sid).map T.pos).Perm
      (intRange 0 (scopeRows T rows sid).length) :=
    ((listOrdered_perm T rows sid).map T.pos).trans h
  have hnodup : ((listOrdered T rows sid).map T.pos).Nodup :=
    hperm.nodup_iff.mpr (nodup_intRange _ _)
  have hstrict : (listOrdered T rows sid).Pairwise fun a b => T.pos a < T.pos b :=
    pairwise_posLt_of_rowLe T (pairwise_rowLe_listOrdered T rows sid) hnodup
  exact eq_of_perm_of_pairwise_lt_int hperm (List.pairwise_map.mpr hstrict)
    (pairwise_lt_intRange _ _)

/-- Renumbering a scope along its own ordered listing leaves every stored
position in the whole table numerically unchanged when the listed positions
are already dense (second-run-is-identity core). -/
theorem posPairs_writePositions_listOrdered (T : TableOps α) {rows : List α}
    {sid : String} (now : Nat) (hW : (rows.map T.rid).Nodup)
    (hd : (listOrdered T rows sid).map T.pos
        = intRange 0 (listOrdered T rows sid).length) :
    posPairs T (writePositions T rows (listOrderedIds T rows sid) 0 now)
      = posPairs T rows := by
  have hids : ((listOrdered T rows sid).map T.rid).Nodup :=
    nodup_map_rid_listOrdered T sid hW
  unfold listOrderedIds posPairs
  rw [writePositions_eq_map T rows 0 now hids, List.map_map]
  apply List.map_congr_left
  intro r hr
  simp only [Function.comp_apply]
  unfold updRow
  cases hiv : idxVal ((listOrdered T rows sid).map T.rid) 0 (T.rid r) with
  | none => rfl
  | some v =>
    obtain ⟨k, hk, hget, hv⟩ := idxVal_eq_some hiv
    have hkL : k < (listOrdered T rows sid).length := by
      simpa using hk
    have hLk : T.rid ((listOrdered T rows sid).get ⟨k, hkL⟩) = T.rid r := by
      have := hget
      simpa using this
    have hmem : (listOrdered T rows sid).get ⟨k, hkL⟩ ∈ rows :=
      mem_rows_of_mem_listOrdered T (List.get_mem _ _ _)
    have hreq : r = (listOrdered T rows sid).get ⟨k, hkL⟩ :=
      List.inj_on_of_nodup_map hW hr hmem hLk.symm
    have hpos : T.pos r = (0 : Int) + k := by
      have hkM : k < ((listOrdered T rows sid).map T.pos).length := by
        rw [List.length_map]
        exact hkL
      have h1 : ((listOrdered T rows sid).map T.pos)[k]? =
          some (T.pos ((listOrdered T rows sid).get ⟨k, hkL⟩)) := by
        rw [List.getElem?_eq_getElem hkM]
        simp
      have hkR : k < (intRange 0 (listOrdered T rows sid).length).length := by
        rw [length_intRange]
        exact hkL
      have h2 : (intRange 0 (listOrdered T rows sid).length)[k]? =
          some ((0 : Int) + k) := by
        rw [List.getElem?_eq_getElem hkR]
        have h3 := get_intRange 0 hkL
        simp only [List.get_eq_getElem] at h3
        rw [h3]
      rw [hd] at h1
      rw [h1] at h2
      rw [hreq]
      exact Option.some.inj h2
    simp [T.rid_withPos, T.pos_withPos, hv, hpos]

theorem findIdx?_beq_get {l : List String} {x : String} {k : Nat}
    (h : l.findIdx? (fun i => i == x) = some k) :
    ∃ hk : k < l.length, l.get ⟨k, hk⟩ = x := by
  obtain ⟨hk, hp⟩ := findIdx?_some_spec h
  exact ⟨hk, beq_iff_eq.mp hp⟩

theorem findIdx?_beq_isSome_of_mem {l : List String} {x : String} (h : x ∈ l) :
    l.findIdx? (fun i => i == x) ≠ none := by
  intro hnone
  have := List.findIdx?_eq_none_iff.mp hnone x h
  simp at this

/-- Erasing the `k`-th listed member and reinserting it anywhere legal yields
a duplicate-free permutation of the scope's members. -/
theorem eraseInsert_setup (T : TableOps α) {rows : List α} {sid : String}
    (hW : (rows.map T.rid).Nodup) {k : Nat}
    (hk : k < (listOrdered T rows sid).length) {j : Nat}
    (hj : j ≤ ((listOrdered T rows sid).eraseIdx k).length) :
    ((((listOrdered T rows sid).eraseIdx k).insertIdx j
        ((listOrdered T rows sid).get ⟨k, hk⟩)).map T.rid).Nodup ∧
    (scopeRows T rows sid).Perm
      (((listOrdered T rows sid).eraseIdx k).insertIdx j
        ((listOrdered T rows sid).get ⟨k, hk⟩)) := by
  have hnodupL : ((listOrdered T rows sid).map T.rid).Nodup :=
    nodup_map_rid_listOrdered T sid hW
  have hpermcons : (listOrdered T rows sid).Perm
      ((listOrdered T rows sid).get ⟨k, hk⟩ :: (listOrdered T rows sid).eraseIdx k) :=
    cons_eraseIdx_perm _ k hk
  have hpermins : (((listOrdered T rows sid).eraseIdx k).insertIdx j
      ((listOrdered T rows sid).get ⟨k, hk⟩)).Perm
      ((listOrdered T rows sid).get ⟨k, hk⟩ :: (listOrdered T rows sid).eraseIdx k) :=
    List.perm_insertIdx _ _ hj
  constructor
  · exact ((hpermins.map T.rid)).nodup_iff.mpr
      (((hpermcons.map T.rid)).nodup_iff.mp hnodupL)
  · exact ((listOrdered_perm T rows sid).symm.trans hpermcons).trans hpermins.symm

theorem updRow_updRow (T : TableOps α) (ids : List String) (s s' : Int)
    (now now' : Nat) (r : α) :
    updRow T ids s' now' (updRow T ids s now r) = updRow T ids s' now' r := by
  cases hbase : idxVal ids 0 (T.rid r) with
  | none =>
    have h1 : idxVal ids s (T.rid r) = none := by rw [idxVal_shift, hbase]; rfl
    simp only [updRow, h1]
  | some v =>
    have h1 : idxVal ids s (T.rid r) = some (v + s) := by rw [idxVal_shift, hbase]; rfl
    have h2 : idxVal ids s' (T.rid r) = some (v + s') := by rw [idxVal_shift, hbase]; rfl
    simp only [updRow, h1, h2, T.rid_withPos, T.withPos_withPos]

/-- The offset-then-normalize write sequence of `update_subtask` equals the
direct 0-based write along the same sequence. -/
theorem writePositions_offset_then_normalize (T : TableOps α) {rows P : List α}
    {sid : String} (now : Nat) (hW : (rows.map T.rid).Nodup)
    (hperm : (scopeRows T rows sid).Perm P) :
    writePositions T (writePositions T rows (P.map T.rid) (P.length) now)
        (listOrderedIds T
          (writePositions T rows (P.map T.rid) (P.length) now) sid) 0 now
      = writePositions T rows (P.map T.rid) 0 now := by
  have hP : (P.map T.rid).Nodup :=
    (hperm.map T.rid).nodup_iff.mp (nodup_map_rid_scopeRows T sid hW)
  have hids : listOrderedIds T
      (writePositions T rows (P.map T.rid) (P.length) now) sid = P.map T.rid := by
    unfold listOrderedIds
    rw [listOrdered_writePositions T (P.length) now hP hperm, map_rid_stampFrom]
  rw [hids, writePositions_eq_map T _ 0 now hP,
    writePositions_eq_map T rows (P.length) now hP, List.map_map,
    writePositions_eq_map T rows 0 now hP]
  exact List.map_congr_left fun r _ => updRow_updRow T _ _ _ _ _ r

/-- Renormalizing a scope twice: the second pass rewrites every position with
its current value. -/
theorem posPairs_normalize_twice (T : TableOps α) {rows : List α} (sid : String)
    (now now₂ : Nat) (hW : (rows.map T.rid).Nodup) :
    posPairs T (writePositions T
        (writePositions T rows (listOrderedIds T rows sid) 0 now)
        (listOrderedIds T
          (writePositions T rows (listOrderedIds T rows sid) 0 now) sid) 0 now₂)
      = posPairs T (writePositions T rows (listOrderedIds T rows sid) 0 now) := by
  have hids : ((listOrdered T rows sid).map T.rid).Nodup :=
    nodup_map_rid_listOrdered T sid hW
  have hW₁ : ((writePositions T rows (listOrderedIds T rows sid) 0 now).map
      T.rid).Nodup := by
    rw [map_rid_writePositions]
    exact hW
  apply posPairs_writePositions_listOrdered T now₂ hW₁
  have hlist : listOrdered T (writePositions T rows (listOrderedIds T rows sid) 0 now)
      sid = stampFrom T now 0 (listOrdered T rows sid) := by
    unfold listOrderedIds
    exact listOrdered_writePositions T 0 now hids (listOrdered_perm T rows sid).symm
  rw [hlist, map_pos_stampFrom, length_stampFrom]

theorem scopeRows_writePositions_disjoint (T : TableOps α) {rows : List α}
    {ids : List String} (s : Int) (now : Nat) {sid : String} (hids : ids.Nodup)
    (hdisj : ∀ r ∈ scopeRows T rows sid, T.rid r ∉ ids) :
    scopeRows T (writePositions T rows ids s now) sid = scopeRows T rows sid := by
  rw [scopeRows_writePositions T rows sid s now hids]
  exact (List.map_congr_left fun r hr =>
    updRow_of_not_mem T s now (hdisj r hr)).trans (List.map_id' _)

/-- A member of scope `sid` never appears in the id listing of a different
scope `sid'` (primary keys are unique across the table). -/
theorem not_mem_other_scope_ids (T : TableOps α) {rows : List α}
    (hW : (rows.map T.rid).Nodup) {sid sid' : String} (hne : sid' ≠ sid)
    {r : α} (hr : r ∈ scopeRows T rows sid) :
    T.rid r ∉ (listOrdered T rows sid').map T.rid := by
  intro hmem
  obtain ⟨x, hx, hEq⟩ := List.mem_map.mp hmem
  have hx' : x ∈ scopeRows T rows sid' := (listOrdered_perm T rows sid').subset hx
  have hrx : x = r := List.inj_on_of_nodup_map hW
    (mem_rows_of_mem_scopeRows T hx') (mem_rows_of_mem_scopeRows T hr) hEq
  exact hne (by
    rw [← scope_of_mem_scopeRows T hx', hrx, scope_of_mem_scopeRows T hr])

/-- Writing positions along (part of) another scope's listing leaves this
scope's members — and hence its ordered listing — untouched. -/
theorem listOrdered_writePositions_other (T : TableOps α) {rows : List α}
    (hW : (rows.map T.rid).Nodup) {sid sid' : String} (hne : sid' ≠ sid)
    (s : Int) (now : Nat) (k : Nat) :
    listOrdered T (writePositions T rows
        (((listOrdered T rows sid').map T.rid).eraseIdx k) s now) sid
      = listOrdered T rows sid := by
  unfold listOrdered
  congr 1
  apply scopeRows_writePositions_disjoint T s now
  · exact (List.eraseIdx_sublist _ k).nodup (nodup_map_rid_listOrdered T sid' hW)
  · intro r hr hmem
    exact not_mem_other_scope_ids T hW hne hr ((List.eraseIdx_sublist _ k).mem hmem)

/-- The ordered listing produced after a same-scope erase/insert write pass:
exactly the reordered listing, stamped `0..n-1`. -/
theorem listOrdered_writeEraseInsert (T : TableOps α) {rows : List α}
    {sid x : String} (now : Nat) {k j : Nat} (hW : (rows.map T.rid).Nodup)
    (hkL : k < (listOrdered T rows sid).length)
    (hget : T.rid ((listOrdered T rows sid).get ⟨k, hkL⟩) = x)
    (hjL : j ≤ ((listOrdered T rows sid).eraseIdx k).length) :
    listOrdered T (writePositions T rows
        ((((listOrdered T rows sid).map T.rid).eraseIdx k).insertIdx j x) 0 now) sid
      = stampFrom T now 0 (((listOrdered T rows sid).eraseIdx k).insertIdx j
          ((listOrdered T rows sid).get ⟨k, hkL⟩)) := by
  obtain ⟨hnodup', hperm'⟩ := eraseInsert_setup T hW hkL hjL
  have hidsform : ((((listOrdered T rows sid).eraseIdx k).insertIdx j
      ((listOrdered T rows sid).get ⟨k, hkL⟩)).map T.rid)
      = (((listOrdered T rows sid).map T.rid).eraseIdx k).insertIdx j x := by
    rw [map_insertIdx, map_eraseIdx, hget]
  rw [← hidsform]
  exact listOrdered_writePositions T 0 now hnodup' hperm'

/-- Density after a same-scope erase/insert write pass. -/
theorem scopeDense_writeEraseInsert (T : TableOps α) {rows : List α}
    {sid x : String} (now : Nat) {k j : Nat} (hW : (rows.map T.rid).Nodup)
    (hkL : k < (listOrdered T rows sid).length)
    (hget : T.rid ((listOrdered T rows sid).get ⟨k, hkL⟩) = x)
    (hjL : j ≤ ((listOrdered T rows sid).eraseIdx k).length) :
    scopeDense T (writePositions T rows
        ((((listOrdered T rows sid).map T.rid).eraseIdx k).insertIdx j x) 0 now) sid := by
  obtain ⟨hnodup', hperm'⟩ := eraseInsert_setup T hW hkL hjL
  have hidsform : ((((listOrdered T rows sid).eraseIdx k).insertIdx j
      ((listOrdered T rows sid).get ⟨k, hkL⟩)).map T.rid)
      = (((listOrdered T rows sid).map T.rid).eraseIdx k).insertIdx j x := by
    rw [map_insertIdx, map_eraseIdx, hget]
  rw [← hidsform]
  exact scopeDense_writePositions T now hnodup' hperm'

theorem move_column_ok_dense {db : Db} {board_id column_id : String} {t : Int}
    {now : Nat} {db' : Db} (hW : (db.columns.map ColumnRow.id).Nodup)
    (h : move_column db board_id column_id t now = .ok db') :
    scopeDense columnT db'.columns board_id := by
  unfold move_column at h
  dsimp only [] at h
  split at h
  · exact Except.noConfusion h
  · split at h
    · exact Except.noConfusion h
    · rename_i k hk
      injection h with h
      subst h
      obtain ⟨hkl, hget⟩ := findIdx?_beq_get hk
      have hkL : k < (listOrdered columnT db.columns board_id).length := by
        simpa [listOrderedIds] using hkl
      have hgetL : columnT.rid ((listOrdered columnT db.columns board_id).get
          ⟨k, hkL⟩) = column_id := by
        simpa [listOrderedIds] using hget
      have hlen : ((listOrderedIds columnT db.columns board_id).eraseIdx k).length
          = ((listOrdered columnT db.columns board_id).eraseIdx k).length := by
        unfold listOrderedIds
        rw [← map_eraseIdx, List.length_map]
      have hjL : clampIndex t ((listOrderedIds columnT db.columns board_id).eraseIdx
          k).length ≤ ((listOrdered columnT db.columns board_id).eraseIdx k).length := by
        rw [← hlen]
        exact clampIndex_le t _
      exact scopeDense_writeEraseInsert columnT now hW hkL hgetL hjL

theorem create_column_ok_dense {db : Db} {id board_id title : String}
    {position : Int} {color icon : Option String} {is_enabled : Option Bool}
    {wip_limit : Option Int} {now : Nat} {db' : Db}
    (hW : (db.columns.map ColumnRow.id).Nodup)
    (hfresh : id ∉ db.columns.map ColumnRow.id)
    (h : create_column db id board_id title position color icon is_enabled wip_limit now
        = .ok db') :
    scopeDense columnT db'.columns board_id := by
  unfold create_column at h
  dsimp only [] at h
  repeat' split at h
  all_goals first
    | exact Except.noConfusion h
    | (injection h with h
       subst h
       apply scopeDense_normalizePass
       rw [List.map_append]
       refine List.Nodup.append hW (by simp) ?_
       intro a ha hb
       simp at hb
       subst hb
       exact hfresh ha)

theorem delete_column_ok_dense {db : Db} {id board_id : String} {now : Nat}
    {db' : Db} (hW : (db.columns.map ColumnRow.id).Nodup)
    (h : delete_column db id board_id now = .ok db') :
    scopeDense columnT db'.columns board_id := by
  unfold delete_column at h
  dsimp only [] at h
  repeat' split at h
  all_goals try exact Except.noConfusion h
  injection h with h
  subst h
  apply scopeDense_normalizePass
  exact ((List.filter_sublist _).map _).nodup hW

theorem create_card_ok_dense {db : Db} {id board_id column_id title : String}
    {description : Option String} {position : Int} {priority : String}
    {due_date : Option String} {now : Nat} {db' : Db}
    (hW : (db.cards.map CardRow.id).Nodup)
    (hfresh : id ∉ db.cards.map CardRow.id)
    (h : create_card db id board_id column_id title description position priority
        due_date now = .ok db') :
    scopeDense cardT db'.cards column_id := by
  unfold create_card at h
  dsimp only [] at h
  repeat' split at h
  all_goals first
    | exact Except.noConfusion h
    | (injection h with h
       subst h
       apply scopeDense_normalizePass
       rw [List.map_append]
       refine List.Nodup.append hW (by simp) ?_
       intro a ha hb
       simp at hb
       subst hb
       exact hfresh ha)

theorem delete_card_ok_dense {db : Db} {id board_id : String} {now : Nat}
    {db' : Db} {card : CardRow} (hW : (db.cards.map CardRow.id).Nodup)
    (hcard : db.cards.find? (fun r => r.id == id) = some card)
    (h : delete_card db id board_id now = .ok db') :
    scopeDense cardT db'.cards card.column_id := by
  unfold delete_card at h
  rw [hcard] at h
  dsimp only [] at h
  split at h
  · exact Except.noConfusion h
  · injection h with h
    subst h
    apply scopeDense_normalizePass
    exact ((List.filter_sublist _).map _).nodup hW

theorem nodup_map_id_of_id_preserving {β : Type} (rid : β → String) (f : β → β)
    (hf : ∀ r, rid (f r) = rid r) {l : List β} (h : (l.map rid).Nodup) :
    ((l.map f).map rid).Nodup := by
  rw [List.map_map]
  have hmap : l.map (rid ∘ f) = l.map rid := List.map_congr_left fun r _ => hf r
  rw [hmap]
  exact h

theorem create_subtask_ok_dense {db : Db} {id board_id card_id title : String}
    {position : Option Int} {now : Nat} {db' : Db}
    (hW : (db.subtasks.map SubtaskRow.id).Nodup)
    (hfresh : id ∉ db.subtasks.map SubtaskRow.id)
    (h : create_subtask db id board_id card_id title position now = .ok db') :
    scopeDense subtaskT db'.subtasks card_id := by
  unfold create_subtask at h
  dsimp only [] at h
  repeat' split at h
  all_goals first
    | exact Except.noConfusion h
    | (injection h with h
       subst h
       apply scopeDense_normalizePass
       rw [List.map_append]
       refine List.Nodup.append
         (nodup_map_id_of_id_preserving _ _ (fun r => by split <;> rfl) hW)
         (by simp) ?_
       intro a ha hb
       simp [subtaskT_rid_apply] at hb
       rw [List.map_map] at ha
       obtain ⟨r, hr, hra⟩ := List.mem_map.mp ha
       apply hfresh
       have hrid : r.id = a := by
         simp only [Function.comp_apply, subtaskT_rid_apply] at hra
         split at hra
         · simpa using hra
         · simpa using hra
       rw [← hb, ← hrid]
       exact List.mem_map_of_mem _ hr)

theorem delete_subtask_ok_dense {db : Db} {id board_id card_id : String} {now : Nat}
    {db' : Db} (hW : (db.subtasks.map SubtaskRow.id).Nodup)
    (h : delete_subtask db id board_id card_id now = .ok db') :
    scopeDense subtaskT db'.subtasks card_id := by
  unfold delete_subtask at h
  dsimp only [] at h
  repeat' split at h
  all_goals first
    | exact Except.noConfusion h
    | (injection h with h
       subst h
       apply scopeDense_normalizePass
       exact ((List.filter_sublist _).map _).nodup hW)

theorem update_subtask_ok_dense {db : Db} {id board_id card_id : String}
    {title : Option String} {isc : Option Bool} {tp : Int} {now : Nat} {db' : Db}
    (hW : (db.subtasks.map SubtaskRow.id).Nodup)
    (h : update_subtask db id board_id card_id title isc (some tp) now = .ok db') :
    scopeDense subtaskT db'.subtasks card_id := by
  unfold update_subtask at h
  dsimp only [] at h
  repeat' split at h
  all_goals first
    | exact Except.noConfusion h
    | (injection h with h
       subst h
       apply scopeDense_normalizePass
       rw [map_rid_writePositions]
       first
         | exact hW
         | exact nodup_map_id_of_id_preserving _ _ (fun r => by split <;> rfl) hW)

theorem move_card_same_ok_dense {db : Db} {board_id card_id col : String} {t : Int}
    {now : Nat} {db' : Db} (hW : (db.cards.map CardRow.id).Nodup)
    (h : move_card db board_id card_id col col t now = .ok db') :
    scopeDense cardT db'.cards col := by
  unfold move_card at h
  dsimp only [] at h
  split at h
  · exact Except.noConfusion h
  · split at h
    · exact Except.noConfusion h
    · split at h
      · exact Except.noConfusion h
      · split at h
        · exact Except.noConfusion h
        · split at h
          · exact Except.noConfusion h
          · split at h
            · exact Except.noConfusion h
            · rename_i k hk
              split at h
              · injection h with h
                subst h
                obtain ⟨hkl, hget⟩ := findIdx?_beq_get hk
                have hkL : k < (listOrdered cardT db.cards col).length := by
                  simpa [listOrderedIds] using hkl
                have hgetL : cardT.rid ((listOrdered cardT db.cards col).get
                    ⟨k, hkL⟩) = card_id := by
                  simpa [listOrderedIds] using hget
                have hlen : ((listOrderedIds cardT db.cards col).eraseIdx k).length
                    = ((listOrdered cardT db.cards col).eraseIdx k).length := by
                  unfold listOrderedIds
                  rw [← map_eraseIdx, List.length_map]
                have hjL : clampIndex t
                    ((listOrderedIds cardT db.cards col).eraseIdx k).length
                    ≤ ((listOrdered cardT db.cards col).eraseIdx k).length := by
                  rw [← hlen]
                  exact clampIndex_le t _
                exact scopeDense_writeEraseInsert cardT now hW hkL hgetL hjL
              · rename_i hne
                exact absurd rfl hne

/-- Reparenting the card `x` out of column `sid`: the remaining members of
`sid` are exactly the previous members without `x` (same rows, same order in
the table). -/
theorem scopeRows_reparent_from {cards : List CardRow} {x dst sid : String}
    {now : Nat} (hsid : dst ≠ sid) :
    scopeRows cardT (cards.map fun r =>
        if r.id == x then { r with column_id := dst, updated_at := now } else r) sid
      = (scopeRows cardT cards sid).filter (fun r => !(r.id == x)) := by
  unfold scopeRows
  rw [List.filter_map, List.filter_filter]
  have hts : (dst == sid) = false := beq_eq_false_iff_ne.mpr hsid
  have hcong : ∀ r ∈ cards,
      ((fun r : CardRow => cardT.scope r == sid) ∘ fun r : CardRow =>
        if r.id == x then { r with column_id := dst, updated_at := now } else r) r
      = (!(r.id == x) && (cardT.scope r == sid)) := by
    intro r _
    by_cases hc : r.id = x
    · simp [hc, cardT_scope_apply, hts]
    · simp [hc]
  rw [List.filter_congr hcong]
  refine (List.map_congr_left ?_).trans (List.map_id' _)
  intro r hr
  have hmem := (List.mem_filter.mp hr).2
  rw [Bool.and_eq_true] at hmem
  have hne : (r.id == x) = false := by
    cases hx : (r.id == x) with
    | false => rfl
    | true => rw [hx] at hmem; simp at hmem
  simp [hne]

/-- Reparenting the card `x` into column `to`: `to`'s members gain exactly
the reparented row. -/
theorem scopeRows_reparent_to {cards : List CardRow} {x dst : String} {now : Nat}
    (hW : (cards.map CardRow.id).Nodup) {c : CardRow} (hc : c ∈ cards)
    (hcid : c.id = x) (hscope : c.column_id ≠ dst) :
    (scopeRows cardT (cards.map fun r =>
        if r.id == x then { r with column_id := dst, updated_at := now } else r)
        dst).Perm
      ({ c with column_id := dst, updated_at := now } :: scopeRows cardT cards dst) := by
  have hnodupl : cards.Nodup := hW.of_map
  have hpermc : cards.Perm (c :: cards.erase c) := List.perm_cons_erase hc
  have herase : ∀ r ∈ cards.erase c, (r.id == x) = false := by
    intro r hr
    apply beq_eq_false_iff_ne.mpr
    intro hEq
    have hrc : r ∈ cards := (cards.erase_sublist c).mem hr
    have hreq : r = c := List.inj_on_of_nodup_map hW hrc hc (by rw [hEq, hcid])
    subst hreq
    exact hnodupl.not_mem_erase hr
  have hg : (fun r : CardRow =>
      if r.id == x then { r with column_id := dst, updated_at := now } else r) c
      = { c with column_id := dst, updated_at := now } := by
    simp [hcid]
  have hmapg : (cards.erase c).map (fun r : CardRow =>
      if r.id == x then { r with column_id := dst, updated_at := now } else r)
      = cards.erase c := by
    refine (List.map_congr_left ?_).trans (List.map_id' _)
    intro r hr
    simp [herase r hr]
  have h1 : (scopeRows cardT (cards.map fun r =>
      if r.id == x then { r with column_id := dst, updated_at := now } else r)
      dst).Perm (scopeRows cardT ((c :: cards.erase c).map fun r =>
        if r.id == x then { r with column_id := dst, updated_at := now } else r) dst) :=
    (hpermc.map _).filter _
  have hbeq : (c.id == x) = true := beq_iff_eq.mpr hcid
  have h2 : scopeRows cardT ((c :: cards.erase c).map fun r =>
      if r.id == x then { r with column_id := dst, updated_at := now } else r) dst
      = { c with column_id := dst, updated_at := now } :: scopeRows cardT
          (cards.erase c) dst := by
    unfold scopeRows
    rw [List.map_cons, hmapg]
    simp only [hbeq, if_true]
    rw [List.filter_cons_of_pos (by simp [cardT_scope_apply])]
  have h3 : (scopeRows cardT (cards.erase c) dst).Perm (scopeRows cardT cards dst) := by
    have hfc := hpermc.filter (fun r => cardT.scope r == dst)
    rw [List.filter_cons_of_neg (by simp [cardT_scope_apply, hscope])] at hfc
    exact hfc.symm
  have h1' : (scopeRows cardT (cards.map fun r =>
      if r.id == x then { r with column_id := dst, updated_at := now } else r)
      dst).Perm ({ c with column_id := dst, updated_at := now } :: scopeRows cardT
        (cards.erase c) dst) := by
    rw [← h2]
    exact h1
  exact h1'.trans (h3.cons _)

/-- The write sequence of a cross-column `move_card` (source renumbering,
destination read, reparent, destination renumbering): both scopes end dense,
the destination listing is the old one with the card inserted at the clamped
index, and the card has left the source listing. -/
theorem cross_write_core (db : Db) (from_column_id to_column_id card_id : String)
    (t : Int) (now : Nat) (k : Nat)
    (hW : (db.cards.map CardRow.id).Nodup)
    (hne : from_column_id ≠ to_column_id)
    (hkL : k < (listOrdered cardT db.cards from_column_id).length)
    (hget : cardT.rid ((listOrdered cardT db.cards from_column_id).get ⟨k, hkL⟩)
      = card_id) :
    let ids := listOrderedIds cardT db.cards from_column_id
    let cards₁ := writePositions cardT db.cards (ids.eraseIdx k) 0 now
    let tids := listOrderedIds cardT cards₁ to_column_id
    let reordered := tids.insertIdx (clampIndex t tids.length) card_id
    let cards₂ := cards₁.map fun r =>
      if r.id == card_id then { r with column_id := to_column_id, updated_at := now }
      else r
    let final := writePositions cardT cards₂ reordered 0 now
    scopeDense cardT final from_column_id ∧ scopeDense cardT final to_column_id
    ∧ listOrderedIds cardT final to_column_id
        = (listOrderedIds cardT db.cards to_column_id).insertIdx
            (clampIndex t (listOrderedIds cardT db.cards to_column_id).length) card_id
    ∧ card_id ∉ listOrderedIds cardT final from_column_id := by
  intro ids cards₁ tids reordered cards₂ final
  have hidsdef : ids = (listOrdered cardT db.cards from_column_id).map cardT.rid := rfl
  have hnodupIds : ids.Nodup := nodup_map_rid_listOrdered cardT from_column_id hW
  have hkIds : k < ids.length := by
    rw [hidsdef, List.length_map]
    exact hkL
  have hgetIds : ids.get ⟨k, hkIds⟩ = card_id := by
    simp only [hidsdef, List.get_eq_getElem, List.getElem_map]
    simpa [List.get_eq_getElem] using hget
  have hxnot₁ : card_id ∉ ids.eraseIdx k := by
    have h0 := not_mem_eraseIdx_of_nodup hnodupIds k hkIds
    rw [hgetIds] at h0
    exact h0
  have herase_ids : ids.eraseIdx k
      = ((listOrdered cardT db.cards from_column_id).eraseIdx k).map cardT.rid := by
    rw [hidsdef, map_eraseIdx]
  have hnodupIds₁ : (ids.eraseIdx k).Nodup :=
    (List.eraseIdx_sublist _ _).nodup hnodupIds
  -- the moved row
  have hcmemL : (listOrdered cardT db.cards from_column_id).get ⟨k, hkL⟩
      ∈ scopeRows cardT db.cards from_column_id :=
    (listOrdered_perm cardT db.cards from_column_id).subset (List.get_mem _ _ _)
  have hcmem : (listOrdered cardT db.cards from_column_id).get ⟨k, hkL⟩ ∈ db.cards :=
    mem_rows_of_mem_scopeRows cardT hcmemL
  have hcscope : ((listOrdered cardT db.cards from_column_id).get ⟨k, hkL⟩).column_id
      = from_column_id := scope_of_mem_scopeRows cardT hcmemL
  have hcid : ((listOrdered cardT db.cards from_column_id).get ⟨k, hkL⟩).id = card_id :=
    hget
  have hcidElem : (listOrdered cardT db.cards from_column_id)[k].id = card_id := by
    simpa [List.get_eq_getElem] using hcid
  -- source members after the first write pass
  have hmembers : (scopeRows cardT db.cards from_column_id).Perm
      ((listOrdered cardT db.cards from_column_id).get ⟨k, hkL⟩
        :: (listOrdered cardT db.cards from_column_id).eraseIdx k) :=
    (listOrdered_perm cardT db.cards from_column_id).symm.trans
      (cons_eraseIdx_perm _ k hkL)
  have hfc : updRow cardT (ids.eraseIdx k) 0 now
      ((listOrdered cardT db.cards from_column_id).get ⟨k, hkL⟩)
      = (listOrdered cardT db.cards from_column_id).get ⟨k, hkL⟩ :=
    updRow_of_not_mem cardT 0 now (by rw [cardT_rid_apply, hcid]; exact hxnot₁)
  have hstamp₁ : ((listOrdered cardT db.cards from_column_id).eraseIdx k).map
      (updRow cardT (ids.eraseIdx k) 0 now)
      = stampFrom cardT now 0
        ((listOrdered cardT db.cards from_column_id).eraseIdx k) := by
    rw [herase_ids]
    exact map_updRow_self cardT _ 0 now (herase_ids ▸ hnodupIds₁)
  have hfrom₁ : (scopeRows cardT cards₁ from_column_id).Perm
      ((listOrdered cardT db.cards from_column_id).get ⟨k, hkL⟩
        :: stampFrom cardT now 0
          ((listOrdered cardT db.cards from_column_id).eraseIdx k)) := by
    show (scopeRows cardT (writePositions cardT db.cards (ids.eraseIdx k) 0 now)
      from_column_id).Perm _
    rw [scopeRows_writePositions cardT db.cards from_column_id 0 now hnodupIds₁]
    refine (hmembers.map _).trans ?_
    rw [List.map_cons, hfc, hstamp₁]
  -- destination members are untouched by the first write pass
  have htar : listOrdered cardT cards₁ to_column_id
      = listOrdered cardT db.cards to_column_id := by
    show listOrdered cardT (writePositions cardT db.cards (ids.eraseIdx k) 0 now)
      to_column_id = _
    rw [hidsdef]
    exact listOrdered_writePositions_other cardT hW hne 0 now k
  have hW₁ : (cards₁.map cardT.rid).Nodup := by
    show ((writePositions cardT db.cards (ids.eraseIdx k) 0 now).map cardT.rid).Nodup
    rw [map_rid_writePositions]
    exact hW
  have hcmem₁ : (listOrdered cardT db.cards from_column_id).get ⟨k, hkL⟩ ∈ cards₁ := by
    show _ ∈ writePositions cardT db.cards (ids.eraseIdx k) 0 now
    rw [writePositions_eq_map cardT db.cards 0 now hnodupIds₁]
    exact List.mem_map.mpr ⟨_, hcmem, hfc⟩
  have hxnot_tar : card_id ∉ tids := by
    show card_id ∉ (listOrdered cardT cards₁ to_column_id).map cardT.rid
    rw [htar, ← hcid, ← cardT_rid_apply]
    exact not_mem_other_scope_ids cardT hW (Ne.symm hne) hcmemL
  have hnodup_tids : tids.Nodup := nodup_map_rid_listOrdered cardT to_column_id hW₁
  -- reparent
  have hto₂ : (scopeRows cardT cards₂ to_column_id).Perm
      ({ (listOrdered cardT db.cards from_column_id).get ⟨k, hkL⟩ with
          column_id := to_column_id, updated_at := now }
        :: scopeRows cardT cards₁ to_column_id) :=
    scopeRows_reparent_to hW₁ hcmem₁ hcid (by rw [hcscope]; exact hne)
  have hfrom₂ : scopeRows cardT cards₂ from_column_id
      = (scopeRows cardT cards₁ from_column_id).filter
          (fun r => !(r.id == card_id)) :=
    scopeRows_reparent_from (Ne.symm hne)
  have hfrom₂p : (scopeRows cardT cards₂ from_column_id).Perm
      (stampFrom cardT now 0
        ((listOrdered cardT db.cards from_column_id).eraseIdx k)) := by
    rw [hfrom₂]
    refine (hfrom₁.filter _).trans ?_
    rw [List.filter_cons_of_neg (by simp [hcidElem]), List.filter_eq_self.mpr ?_]
    intro r hr
    have hrid : r.id ∈ ids.eraseIdx k := by
      rw [herase_ids, ← map_rid_stampFrom cardT now 0]
      exact List.mem_map.mpr ⟨r, hr, (cardT_rid_apply r).symm ▸ rfl⟩
    simp only [Bool.not_eq_eq_eq_not, Bool.not_true, beq_eq_false_iff_ne]
    intro hEq
    rw [hEq] at hrid
    exact hxnot₁ hrid
  -- the reordered destination rows
  have hjle : clampIndex t tids.length ≤ (listOrdered cardT cards₁ to_column_id).length := by
    have hlen : tids.length = (listOrdered cardT cards₁ to_column_id).length := by
      show ((listOrdered cardT cards₁ to_column_id).map cardT.rid).length = _
      rw [List.length_map]
    rw [← hlen]
    exact clampIndex_le t _
  have hreordids : ((listOrdered cardT cards₁ to_column_id).insertIdx
      (clampIndex t tids.length)
      { (listOrdered cardT db.cards from_column_id).get ⟨k, hkL⟩ with
        column_id := to_column_id, updated_at := now }).map cardT.rid = reordered := by
    show _ = tids.insertIdx (clampIndex t tids.length) card_id
    rw [map_insertIdx, cardT_rid_apply, hcid]
    rfl
  have hnodup_reord : reordered.Nodup := by
    have hp : reordered.Perm (card_id :: tids) :=
      List.perm_insertIdx _ _ (by
        have hlen : tids.length = (listOrdered cardT cards₁ to_column_id).length := by
          show ((listOrdered cardT cards₁ to_column_id).map cardT.rid).length = _
          rw [List.length_map]
        rw [← hlen] at hjle
        exact hjle)
    exact hp.nodup_iff.mpr (List.nodup_cons.mpr ⟨hxnot_tar, hnodup_tids⟩)
  have hnodupL₂ : (((listOrdered cardT cards₁ to_column_id).insertIdx
      (clampIndex t tids.length)
      { (listOrdered cardT db.cards from_column_id).get ⟨k, hkL⟩ with
        column_id := to_column_id, updated_at := now }).map cardT.rid).Nodup := by
    rw [hreordids]
    exact hnodup_reord
  have hpermL₂ : (scopeRows cardT cards₂ to_column_id).Perm
      ((listOrdered cardT cards₁ to_column_id).insertIdx (clampIndex t tids.length)
        { (listOrdered cardT db.cards from_column_id).get ⟨k, hkL⟩ with
          column_id := to_column_id, updated_at := now }) := by
    refine hto₂.trans ?_
    refine (((listOrdered_perm cardT cards₁ to_column_id).symm).cons _).trans ?_
    exact (List.perm_insertIdx _ _ hjle).symm
  have hpreord : reordered.Perm (card_id :: tids) := by
    refine List.perm_insertIdx _ _ ?_
    have hlen : tids.length = (listOrdered cardT cards₁ to_column_id).length := by
      show ((listOrdered cardT cards₁ to_column_id).map cardT.rid).length = _
      rw [List.length_map]
    rw [← hlen] at hjle
    exact hjle
  have hdisj : ∀ r ∈ scopeRows cardT cards₂ from_column_id, cardT.rid r ∉ reordered := by
    intro r hr
    have hmem1 : r ∈ scopeRows cardT cards₁ from_column_id := by
      rw [hfrom₂] at hr
      exact (List.mem_filter.mp hr).1
    have hne_id : r.id ≠ card_id := by
      rw [hfrom₂] at hr
      have h2 := (List.mem_filter.mp hr).2
      simpa using h2
    intro hmem
    rw [hpreord.mem_iff] at hmem
    rcases List.mem_cons.mp hmem with hEq | hmemt
    · rw [cardT_rid_apply] at hEq
      exact hne_id hEq
    · exact not_mem_other_scope_ids cardT hW₁ (Ne.symm hne) hmem1 hmemt
  have hsr : scopeRows cardT final from_column_id
      = scopeRows cardT cards₂ from_column_id :=
    scopeRows_writePositions_disjoint cardT 0 now hnodup_reord hdisj
  refine ⟨?_, ?_, ?_, ?_⟩
  · unfold scopeDense densePositions
    rw [hsr, hfrom₂p.length_eq, length_stampFrom]
    exact (hfrom₂p.map cardT.pos).trans (by rw [map_pos_stampFrom])
  · have hd := scopeDense_writePositions cardT now hnodupL₂ hpermL₂
    rw [hreordids] at hd
    exact hd
  · have hl := listOrdered_writePositions cardT 0 now hnodupL₂ hpermL₂
    rw [hreordids] at hl
    show (listOrdered cardT final to_column_id).map cardT.rid = _
    rw [hl, map_rid_stampFrom, hreordids]
    show tids.insertIdx (clampIndex t tids.length) card_id = _
    have htids : tids = listOrderedIds cardT db.cards to_column_id :=
      congrArg (List.map cardT.rid) htar
    rw [htids]
  · intro hmem
    obtain ⟨r, hrmem, hrid⟩ := List.mem_map.mp hmem
    have hr2 : r ∈ scopeRows cardT final from_column_id :=
      (listOrdered_perm cardT final from_column_id).subset hrmem
    rw [hsr, hfrom₂] at hr2
    have h2 := (List.mem_filter.mp hr2).2
    rw [cardT_rid_apply] at hrid
    rw [hrid] at h2
    simp at h2

theorem move_card_cross_ok {db : Db}
    {board_id card_id from_column_id to_column_id : String} {t : Int} {now : Nat}
    {db' : Db} (hW : (db.cards.map CardRow.id).Nodup)
    (hne : from_column_id ≠ to_column_id)
    (h : move_card db board_id card_id from_column_id to_column_id t now = .ok db') :
    scopeDense cardT db'.cards from_column_id
    ∧ scopeDense cardT db'.cards to_column_id
    ∧ listOrderedIds cardT db'.cards to_column_id
        = (listOrderedIds cardT db.cards to_column_id).insertIdx
            (clampIndex t (listOrderedIds cardT db.cards to_column_id).length) card_id
    ∧ card_id ∉ listOrderedIds cardT db'.cards from_column_id
    ∧ db'.columns = db.columns ∧ db'.subtasks = db.subtasks := by
  unfold move_card at h
  dsimp only [] at h
  split at h
  · exact Except.noConfusion h
  · split at h
    · exact Except.noConfusion h
    · split at h
      · exact Except.noConfusion h
      · split at h
        · exact Except.noConfusion h
        · split at h
          · exact Except.noConfusion h
          · split at h
            · exact Except.noConfusion h
            · rename_i k hk
              injection h with h
              subst h
              obtain ⟨hkl, hget⟩ := findIdx?_beq_get hk
              have hkL : k < (listOrdered cardT db.cards from_column_id).length := by
                simpa [listOrderedIds] using hkl
              have hgetL : cardT.rid ((listOrdered cardT db.cards
                  from_column_id).get ⟨k, hkL⟩) = card_id := by
                simpa [listOrderedIds] using hget
              obtain ⟨h1, h2, h3, h4⟩ := cross_write_core db from_column_id
                to_column_id card_id t now k hW hne hkL hgetL
              exact ⟨h1, h2, h3, h4, rfl, rfl⟩

/-- With unique primary keys, `find?` on a member's id returns exactly that
member. -/
theorem find?_rid_eq_some (T : TableOps α) {rows : List α}
    (hW : (rows.map T.rid).Nodup) {r : α} (hr : r ∈ rows) :
    rows.find? (fun x => T.rid x == T.rid r) = some r := by
  have hsome : (rows.find? (fun x => T.rid x == T.rid r)).isSome := by
    rw [List.find?_isSome]
    exact ⟨r, hr, by simp⟩
  obtain ⟨c, hc⟩ := Option.isSome_iff_exists.mp hsome
  have hcmem := List.mem_of_find?_eq_some hc
  have hceq : T.rid c = T.rid r := by simpa using List.find?_some hc
  rw [hc, List.inj_on_of_nodup_map hW hcmem hr hceq]

/-- `move_card` succeeds exactly when its scope validations hold: the card
exists, belongs to the supplied board and source column, and the destination
column exists on the same board. -/
theorem move_card_ok_iff (db : Db)
    (board_id card_id from_column_id to_column_id : String) (t : Int) (now : Nat)
    (hWc : (db.cards.map CardRow.id).Nodup)
    (hWk : (db.columns.map ColumnRow.id).Nodup) :
    (∃ db', move_card db board_id card_id from_column_id to_column_id t now
        = .ok db')
    ↔ ((∃ card ∈ db.cards, card.id = card_id ∧ card.board_id = board_id
          ∧ card.column_id = from_column_id)
      ∧ (∃ target ∈ db.columns, target.id = to_column_id
          ∧ target.board_id = board_id)) := by
  constructor
  · rintro ⟨db', h⟩
    unfold move_card at h
    dsimp only [] at h
    split at h
    · exact Except.noConfusion h
    · rename_i card hfind
      split at h
      · exact Except.noConfusion h
      · rename_i hb
        split at h
        · exact Except.noConfusion h
        · rename_i hc
          split at h
          · exact Except.noConfusion h
          · rename_i target hcol
            split at h
            · exact Except.noConfusion h
            · rename_i htb
              refine ⟨⟨card, List.mem_of_find?_eq_some hfind,
                  by simpa using List.find?_some hfind,
                  not_ne_iff.mp hb, not_ne_iff.mp hc⟩,
                ⟨target, List.mem_of_find?_eq_some hcol,
                  by simpa using List.find?_some hcol, not_ne_iff.mp htb⟩⟩
  · rintro ⟨⟨card, hmem, hid, hb, hc⟩, ⟨target, htmem, htid, htb⟩⟩
    have hfind : db.cards.find? (fun r => r.id == card_id) = some card := by
      rw [← hid]
      exact find?_rid_eq_some cardT hWc hmem
    have hcol : db.columns.find? (fun c => c.id == to_column_id) = some target := by
      rw [← htid]
      exact find?_rid_eq_some columnT hWk htmem
    have hmemids : card_id ∈ listOrderedIds cardT db.cards from_column_id := by
      unfold listOrderedIds
      have hsc : card ∈ scopeRows cardT db.cards from_column_id := by
        unfold scopeRows
        rw [List.mem_filter]
        refine ⟨hmem, ?_⟩
        rw [cardT_scope_apply, hc]
        exact beq_self_eq_true _
      exact List.mem_map.mpr
        ⟨card, (listOrdered_perm cardT db.cards from_column_id).symm.subset hsc,
          by rw [cardT_rid_apply, hid]⟩
    cases hkc : (listOrderedIds cardT db.cards from_column_id).findIdx?
        (fun i => i == card_id) with
    | none => exact absurd hkc (findIdx?_beq_isSome_of_mem hmemids)
    | some k =>
      unfold move_card
      simp only [hfind, hb, hc, hcol, htb, eq_self_iff_true, ne_eq,
        not_true_eq_false, if_false, hkc]
      by_cases hft : from_column_id = to_column_id
      · rw [if_pos hft]
        exact ⟨_, rfl⟩
      · rw [if_neg hft]
        exact ⟨_, rfl⟩

/-- All card fields other than `column_id`, `position` and `updated_at`. -/
def samePayload (a b : CardRow) : Prop :=
  a.id = b.id ∧ a.board_id = b.board_id ∧ a.title = b.title
  ∧ a.description = b.description ∧ a.priority = b.priority
  ∧ a.due_date = b.due_date ∧ a.archived_at = b.archived_at
  ∧ a.created_at = b.created_at

theorem samePayload_refl (a : CardRow) : samePayload a a :=
  ⟨rfl, rfl, rfl, rfl, rfl, rfl, rfl, rfl⟩

theorem samePayload_trans {a b c : CardRow} (h₁ : samePayload a b)
    (h₂ : samePayload b c) : samePayload a c := by
  obtain ⟨h1, h2, h3, h4, h5, h6, h7, h8⟩ := h₁
  obtain ⟨g1, g2, g3, g4, g5, g6, g7, g8⟩ := h₂
  exact ⟨h1.trans g1, h2.trans g2, h3.trans g3, h4.trans g4, h5.trans g5,
    h6.trans g6, h7.trans g7, h8.trans g8⟩

/-- A write pass changes only `position` and `updated_at` of a card row. -/
theorem updRow_samePayload (ids : List String) (s : Int) (now : Nat) (r : CardRow) :
    samePayload (updRow cardT ids s now r) r
    ∧ (updRow cardT ids s now r).column_id = r.column_id := by
  unfold updRow
  cases idxVal ids s (cardT.rid r) with
  | none => exact ⟨samePayload_refl r, rfl⟩
  | some v => exact ⟨⟨rfl, rfl, rfl, rfl, rfl, rfl, rfl, rfl⟩, rfl⟩

/-- The reparenting UPDATE of a cross-column `move_card`
(`UPDATE kanban_cards SET column_id = ?, updated_at = ... WHERE id = ?`). -/
def reparent (card_id to_column_id : String) (now : Nat) (r : CardRow) : CardRow :=
  if r.id == card_id then { r with column_id := to_column_id, updated_at := now }
  else r

/-- The reparenting UPDATE changes only `column_id` and `updated_at`, and
only for the moved card. -/
theorem reparent_samePayload (card_id to_column_id : String) (now : Nat)
    (r : CardRow) :
    samePayload (reparent card_id to_column_id now r) r
    ∧ ((reparent card_id to_column_id now r).column_id = r.column_id
        ∨ (reparent card_id to_column_id now r).column_id = to_column_id)
    ∧ (r.id ≠ card_id → reparent card_id to_column_id now r = r) := by
  unfold reparent
  by_cases hb : r.id = card_id
  · have hbeq : (r.id == card_id) = true := beq_iff_eq.mpr hb
    rw [if_pos hbeq]
    exact ⟨⟨rfl, rfl, rfl, rfl, rfl, rfl, rfl, rfl⟩, Or.inr rfl,
      fun hc => absurd hb hc⟩
  · have hbeq : (r.id == card_id) = false := beq_eq_false_iff_ne.mpr hb
    rw [if_neg (by simp [hbeq])]
    exact ⟨samePayload_refl r, Or.inl rfl, fun _ => rfl⟩

/-- The same-column branch of `move_card` as a pointwise table map. -/
theorem same_branch_map (db : Db) (card_id from_column_id : String) (t : Int)
    (now : Nat) (k : Nat) (card : CardRow)
    (hW : (db.cards.map CardRow.id).Nodup)
    (hcardmem : card ∈ db.cards) (hcardid : card.id = card_id)
    (hccol : card.column_id = from_column_id)
    (hkl : k < (listOrderedIds cardT db.cards from_column_id).length)
    (hget : (listOrderedIds cardT db.cards from_column_id).get ⟨k, hkl⟩
      = card_id) :
    ∃ F : CardRow → CardRow,
      writePositions cardT db.cards
          (((listOrderedIds cardT db.cards from_column_id).eraseIdx k).insertIdx
            (clampIndex t ((listOrderedIds cardT db.cards
              from_column_id).eraseIdx k).length) card_id) 0 now
        = db.cards.map F
      ∧ (∀ r, samePayload (F r) r)
      ∧ (∀ r, (F r).column_id = r.column_id)
      ∧ (∀ r ∈ db.cards, r.column_id ≠ from_column_id → F r = r) := by
  have hnodupIds : (listOrderedIds cardT db.cards from_column_id).Nodup :=
    nodup_map_rid_listOrdered cardT from_column_id hW
  have hxnot₁ : card_id ∉ (listOrderedIds cardT db.cards
      from_column_id).eraseIdx k := by
    have h0 := not_mem_eraseIdx_of_nodup hnodupIds k hkl
    rw [hget] at h0
    exact h0
  have hernodup : ((listOrderedIds cardT db.cards
      from_column_id).eraseIdx k).Nodup :=
    (List.eraseIdx_sublist _ _).nodup hnodupIds
  have hperm_re : ((((listOrderedIds cardT db.cards from_column_id).eraseIdx
      k).insertIdx (clampIndex t ((listOrderedIds cardT db.cards
        from_column_id).eraseIdx k).length) card_id)).Perm
      (card_id :: (listOrderedIds cardT db.cards from_column_id).eraseIdx k) :=
    List.perm_insertIdx _ _ (clampIndex_le t _)
  have hnodup_re := hperm_re.nodup_iff.mpr
    (List.nodup_cons.mpr ⟨hxnot₁, hernodup⟩)
  refine ⟨updRow cardT (((listOrderedIds cardT db.cards
      from_column_id).eraseIdx k).insertIdx (clampIndex t ((listOrderedIds cardT
      db.cards from_column_id).eraseIdx k).length) card_id) 0 now,
    writePositions_eq_map cardT db.cards 0 now hnodup_re,
    fun r => (updRow_samePayload _ 0 now r).1,
    fun r => (updRow_samePayload _ 0 now r).2,
    ?_⟩
  intro r hr hrc
  apply updRow_of_not_mem cardT 0 now
  rw [cardT_rid_apply]
  intro hmem
  rw [hperm_re.mem_iff] at hmem
  rcases List.mem_cons.mp hmem with hEq | hmem'
  · have hrcard : r = card :=
      List.inj_on_of_nodup_map hW hr hcardmem (by rw [hEq, hcardid])
    exact hrc (by rw [hrcard]; exact hccol)
  · have hmem'' : r.id ∈ listOrderedIds cardT db.cards from_column_id :=
      (List.eraseIdx_sublist _ _).mem hmem'
    have hsc : r ∈ scopeRows cardT db.cards r.column_id :=
      List.mem_filter.mpr ⟨hr, by simp [cardT_scope_apply]⟩
    have hx := not_mem_other_scope_ids cardT hW (Ne.symm hrc) hsc
    rw [cardT_rid_apply] at hx
    exact hx hmem''

/-- The cross-column branch of `move_card` as a pointwise table map. -/
theorem cross_branch_map (db : Db)
    (card_id from_column_id to_column_id : String) (t : Int) (now : Nat) (k : Nat)
    (card : CardRow) (hW : (db.cards.map CardRow.id).Nodup)
    (hne : from_column_id ≠ to_column_id)
    (hcardmem : card ∈ db.cards) (hcardid : card.id = card_id)
    (hccol : card.column_id = from_column_id) :
    ∃ F : CardRow → CardRow,
      writePositions cardT
          ((writePositions cardT db.cards ((listOrderedIds cardT db.cards
              from_column_id).eraseIdx k) 0 now).map (fun r =>
            if r.id == card_id then
              { r with column_id := to_column_id, updated_at := now }
            else r))
          ((listOrderedIds cardT (writePositions cardT db.cards ((listOrderedIds
              cardT db.cards from_column_id).eraseIdx k) 0 now)
              to_column_id).insertIdx
            (clampIndex t (listOrderedIds cardT (writePositions cardT db.cards
              ((listOrderedIds cardT db.cards from_column_id).eraseIdx k) 0 now)
              to_column_id).length) card_id) 0 now
        = db.cards.map F
      ∧ (∀ r, samePayload (F r) r)
      ∧ (∀ r, r.id ≠ card_id → (F r).column_id = r.column_id)
      ∧ (∀ r, (F r).column_id = r.column_id ∨ (F r).column_id = to_column_id)
      ∧ (∀ r ∈ db.cards, r.column_id ≠ from_column_id →
          r.column_id ≠ to_column_id → F r = r) := by
  have hnodupIds : (listOrderedIds cardT db.cards from_column_id).Nodup :=
    nodup_map_rid_listOrdered cardT from_column_id hW
  have hsrc_nodup : ((listOrderedIds cardT db.cards
      from_column_id).eraseIdx k).Nodup :=
    (List.eraseIdx_sublist _ _).nodup hnodupIds
  have htar : listOrdered cardT (writePositions cardT db.cards ((listOrderedIds
      cardT db.cards from_column_id).eraseIdx k) 0 now) to_column_id
      = listOrdered cardT db.cards to_column_id :=
    listOrdered_writePositions_other cardT hW hne 0 now k
  have htids : listOrderedIds cardT (writePositions cardT db.cards
      ((listOrderedIds cardT db.cards from_column_id).eraseIdx k) 0 now)
      to_column_id = listOrderedIds cardT db.cards to_column_id :=
    congrArg (List.map cardT.rid) htar
  have hcardsc : card ∈ scopeRows cardT db.cards from_column_id :=
    List.mem_filter.mpr ⟨hcardmem, by simp [cardT_scope_apply, hccol]⟩
  have hxnot_tar : card_id ∉ listOrderedIds cardT (writePositions cardT db.cards
      ((listOrderedIds cardT db.cards from_column_id).eraseIdx k) 0 now)
      to_column_id := by
    rw [htids]
    have hx := not_mem_other_scope_ids cardT hW (Ne.symm hne) hcardsc
    rw [cardT_rid_apply, hcardid] at hx
    exact hx
  have hnodup_tids : (listOrderedIds cardT (writePositions cardT db.cards
      ((listOrderedIds cardT db.cards from_column_id).eraseIdx k) 0 now)
      to_column_id).Nodup := by
    rw [htids]
    exact nodup_map_rid_listOrdered cardT to_column_id hW
  have hperm_re : ((listOrderedIds cardT (writePositions cardT db.cards
      ((listOrderedIds cardT db.cards from_column_id).eraseIdx k) 0 now)
      to_column_id).insertIdx (clampIndex t (listOrderedIds cardT (writePositions
      cardT db.cards ((listOrderedIds cardT db.cards from_column_id).eraseIdx k)
      0 now) to_column_id).length) card_id).Perm
      (card_id :: listOrderedIds cardT (writePositions cardT db.cards
        ((listOrderedIds cardT db.cards from_column_id).eraseIdx k) 0 now)
        to_column_id) :=
    List.perm_insertIdx _ _ (clampIndex_le t _)
  have hnodup_re := hperm_re.nodup_iff.mpr
    (List.nodup_cons.mpr ⟨hxnot_tar, hnodup_tids⟩)
  refine ⟨fun r => updRow cardT ((listOrderedIds cardT (writePositions cardT
      db.cards ((listOrderedIds cardT db.cards from_column_id).eraseIdx k) 0 now)
      to_column_id).insertIdx (clampIndex t (listOrderedIds cardT (writePositions
      cardT db.cards ((listOrderedIds cardT db.cards from_column_id).eraseIdx k)
      0 now) to_column_id).length) card_id) 0 now
      (reparent card_id to_column_id now
        (updRow cardT ((listOrderedIds cardT db.cards from_column_id).eraseIdx
          k) 0 now r)),
    ?_, ?_, ?_, ?_, ?_⟩
  · rw [writePositions_eq_map cardT _ 0 now hnodup_re,
      writePositions_eq_map cardT db.cards 0 now hsrc_nodup, List.map_map,
      List.map_map]
    rfl
  · intro r
    refine samePayload_trans (updRow_samePayload _ 0 now _).1 ?_
    refine samePayload_trans (reparent_samePayload card_id to_column_id now _).1 ?_
    exact (updRow_samePayload _ 0 now r).1
  · intro r hrid
    dsimp only []
    have hid₁ : (updRow cardT ((listOrderedIds cardT db.cards
        from_column_id).eraseIdx k) 0 now r).id = r.id :=
      ((updRow_samePayload _ 0 now r).1).1
    have h2 := (reparent_samePayload card_id to_column_id now
      (updRow cardT ((listOrderedIds cardT db.cards from_column_id).eraseIdx
        k) 0 now r)).2.2 (by rw [hid₁]; exact hrid)
    rw [h2, (updRow_samePayload _ 0 now _).2, (updRow_samePayload _ 0 now r).2]
  · intro r
    dsimp only []
    rcases (reparent_samePayload card_id to_column_id now
        (updRow cardT ((listOrderedIds cardT db.cards from_column_id).eraseIdx
          k) 0 now r)).2.1 with hcolpres | hcolto
    · left
      rw [(updRow_samePayload _ 0 now _).2, hcolpres,
        (updRow_samePayload _ 0 now r).2]
    · right
      rw [(updRow_samePayload _ 0 now _).2, hcolto]
  · intro r hr hrf hrt
    dsimp only []
    have hrid : r.id ≠ card_id := by
      intro hEq
      have hrcard : r = card :=
        List.inj_on_of_nodup_map hW hr hcardmem (by rw [hEq, hcardid])
      exact hrf (by rw [hrcard]; exact hccol)
    have hsc : r ∈ scopeRows cardT db.cards r.column_id :=
      List.mem_filter.mpr ⟨hr, by simp [cardT_scope_apply]⟩
    have hu₁ : updRow cardT ((listOrderedIds cardT db.cards
        from_column_id).eraseIdx k) 0 now r = r := by
      apply updRow_of_not_mem cardT 0 now
      rw [cardT_rid_apply]
      intro hmem
      have hmem' : r.id ∈ listOrderedIds cardT db.cards from_column_id :=
        (List.eraseIdx_sublist _ _).mem hmem
      have hx := not_mem_other_scope_ids cardT hW (Ne.symm hrf) hsc
      rw [cardT_rid_apply] at hx
      exact hx hmem'
    rw [hu₁]
    have hg := (reparent_samePayload card_id to_column_id now r).2.2 hrid
    rw [hg]
    apply updRow_of_not_mem cardT 0 now
    rw [cardT_rid_apply]
    intro hmem
    rw [hperm_re.mem_iff] at hmem
    rcases List.mem_cons.mp hmem with hEq | hmem'
    · exact hrid hEq
    · rw [htids] at hmem'
      have hx := not_mem_other_scope_ids cardT hW (Ne.symm hrt) hsc
      rw [cardT_rid_apply] at hx
      exact hx hmem'

/-- A successful `move_card` rewrites the card table pointwise: every row
keeps its identity and payload fields, `column_id` changes only for the moved
card, and rows of unaffected columns are untouched entirely. -/
theorem move_card_ok_map {db : Db}
    {board_id card_id from_column_id to_column_id : String} {t : Int} {now : Nat}
    {db' : Db} (hW : (db.cards.map CardRow.id).Nodup)
    (h : move_card db board_id card_id from_column_id to_column_id t now
      = .ok db') :
    db'.columns = db.columns ∧ db'.subtasks = db.subtasks
    ∧ ∃ F : CardRow → CardRow, db'.cards = db.cards.map F
      ∧ (∀ r, samePayload (F r) r)
      ∧ (∀ r, r.id ≠ card_id → (F r).column_id = r.column_id)
      ∧ (∀ r, (F r).column_id = r.column_id ∨ (F r).column_id = to_column_id)
      ∧ (∀ r ∈ db.cards, r.id = card_id → r.column_id = from_column_id)
      ∧ (∀ r ∈ db.cards, r.column_id ≠ from_column_id →
          r.column_id ≠ to_column_id → F r = r) := by
  unfold move_card at h
  dsimp only [] at h
  split at h
  · exact Except.noConfusion h
  · rename_i card hfind
    split at h
    · exact Except.noConfusion h
    · rename_i hbne
      split at h
      · exact Except.noConfusion h
      · rename_i hcne
        split at h
        · exact Except.noConfusion h
        · rename_i target hcol
          split at h
          · exact Except.noConfusion h
          · rename_i htbne
            split at h
            · exact Except.noConfusion h
            · rename_i k hk
              have hcardmem : card ∈ db.cards := List.mem_of_find?_eq_some hfind
              have hcardid : card.id = card_id := by
                simpa using List.find?_some hfind
              have hccol : card.column_id = from_column_id := not_ne_iff.mp hcne
              have huniq : ∀ r ∈ db.cards, r.id = card_id → r = card := by
                intro r hr hrid
                exact List.inj_on_of_nodup_map hW hr hcardmem
                  (by rw [hrid, hcardid])
              obtain ⟨hkl, hget⟩ := findIdx?_beq_get hk
              split at h
              · rename_i hft
                injection h with h
                subst h
                obtain ⟨F, hmap, hpay, hcolpres, huntouched⟩ :=
                  same_branch_map db card_id from_column_id t now k card hW
                    hcardmem hcardid hccol hkl hget
                refine ⟨rfl, rfl, F, hmap, hpay, fun r _ => hcolpres r,
                  fun r => Or.inl (hcolpres r), ?_, ?_⟩
                · intro r hr hrid
                  rw [huniq r hr hrid]
                  exact hccol
                · intro r hr hrf _
                  exact huntouched r hr hrf
              · rename_i hft
                injection h with h
                subst h
                obtain ⟨F, hmap, hpay, hcol₁, hcol₂, huntouched⟩ :=
                  cross_branch_map db card_id from_column_id to_column_id t now k
                    card hW hft hcardmem hcardid hccol
                refine ⟨rfl, rfl, F, hmap, hpay, hcol₁, hcol₂, ?_, huntouched⟩
                intro r hr hrid
                rw [huniq r hr hrid]
                exact hccol

theorem lt_of_mem_intRange : ∀ {s : Int} {n : Nat} {x : Int},
    x ∈ intRange s n → x < s + n
  | _, 0, _, h => absurd h (List.not_mem_nil _)
  | s, n + 1, x, h => by
    rcases List.mem_cons.mp h with rfl | h'
    · omega
    · have := lt_of_mem_intRange h'
      omega

theorem mem_intRange : ∀ {s : Int} {n : Nat} {x : Int},
    s ≤ x → x < s + n → x ∈ intRange s n
  | s, 0, x, h1, h2 => by
    exfalso
    omega
  | s, n + 1, x, h1, h2 => by
    rcases eq_or_lt_of_le h1 with heq | hlt
    · rw [← heq]
      exact List.mem_cons_self _ _
    · exact List.mem_cons_of_mem _ (mem_intRange (by omega) (by omega))

/-- The SQL `MAX(position)` of a dense multiset `{0..n-1}` is `n-1` (`-1` via
the `unwrap_or(-1)` when the scope is empty). -/
theorem max?_getD_of_densePositions {l : List Int} {n : Nat}
    (h : l.Perm (intRange 0 n)) : l.max?.getD (-1) = (n : Int) - 1 := by
  cases n with
  | zero =>
    have hl : l = [] := h.eq_nil
    rw [hl]
    decide
  | succ m =>
    have hmem : ((m : Int)) ∈ l := by
      rw [h.mem_iff]
      exact mem_intRange (by omega) (by push_cast; omega)
    have hub : ∀ b ∈ l, b ≤ (m : Int) := by
      intro b hb
      rw [h.mem_iff] at hb
      have := lt_of_mem_intRange hb
      push_cast at this
      omega
    have hmax : l.max? = some ((m : Int)) := by
      haveI : Std.Antisymm (fun a b : Int => a ≤ b) :=
        ⟨fun h1 h2 => le_antisymm h1 h2⟩
      rw [List.max?_eq_some_iff (fun a => le_refl a) (fun a b => max_choice a b)
        (fun a b c => max_le_iff)]
      exact ⟨hmem, hub⟩
    rw [hmax]
    show (m : Int) = ((m + 1 : Nat) : Int) - 1
    push_cast
    omega

theorem sqlMaxPos_of_dense (T : TableOps α) {rows : List α} {sid : String}
    (h : scopeDense T rows sid) :
    (sqlMaxPos T rows sid).getD (-1)
      = ((scopeRows T rows sid).length : Int) - 1 :=
  max?_getD_of_densePositions h

/-- The per-row UPDATE loop, when every statement survives the oracle,
applies exactly the full write pass to the working state. -/
theorem txWriteCardPositions_ok : ∀ (ids : List String) (s : Int) (now : Nat)
    (oracle : Nat → Bool) (t : Tx) (u : Unit) (t' : Tx),
    txWriteCardPositions ids s now oracle t = .ok (u, t') →
    t'.db = { t.db with cards := writePositions cardT t.db.cards ids s now }
  | [], s, now, oracle, t, u, t', h => by
    unfold txWriteCardPositions TxM.done at h
    injection h with h
    have h2 := congrArg Prod.snd h
    dsimp at h2
    rw [← h2]
    rfl
  | i :: rest, s, now, oracle, t, u, t', h => by
    unfold txWriteCardPositions TxM.bind txWrite txStmt at h
    dsimp only [] at h
    split at h
    · exact Except.noConfusion h
    · rename_i a t₁ heq
      split at heq
      · exact Except.noConfusion heq
      · injection heq with heq
        have h2 := congrArg Prod.snd heq
        dsimp at h2
        rw [← h2] at h
        have ih := txWriteCardPositions_ok rest (s + 1) now oracle _ u t' h
        rw [ih]
        rfl

/-! ## Claims -/

/-- **C1**: after any single create, delete, or move operation commits
successfully — starting from a state whose members may hold arbitrary
positions — the positions stored for the affected scope's live members are
exactly `{0, 1, …, n-1}`: dense, zero-based, with no duplicates
(`scopeDense`).  Covered operations: `move_column`, `create_column`,
`delete_column`, `create_card`, `delete_card`, `move_card` (both the source
and the destination column scope), `create_subtask`, `delete_subtask`, and
the reorder path of `update_subtask`.  `hW` records the primary-key
uniqueness the database schema enforces, and the freshness hypotheses on the
create operations record that an INSERT with a duplicated primary key cannot
commit. -/
theorem C1_density_after_any_op (db : Db) (now : Nat) (hW : db.WF) :
    (∀ (board_id column_id : String) (t : Int) (db' : Db),
      move_column db board_id column_id t now = .ok db' →
      scopeDense columnT db'.columns board_id) ∧
    (∀ (id board_id title : String) (position : Int) (color icon : Option String)
        (is_enabled : Option Bool) (wip_limit : Option Int) (db' : Db),
      id ∉ db.columns.map ColumnRow.id →
      create_column db id board_id title position color icon is_enabled wip_limit now
          = .ok db' →
      scopeDense columnT db'.columns board_id) ∧
    (∀ (id board_id : String) (db' : Db),
      delete_column db id board_id now = .ok db' →
      scopeDense columnT db'.columns board_id) ∧
    (∀ (id board_id column_id title : String) (description : Option String)
        (position : Int) (priority : String) (due_date : Option String) (db' : Db),
      id ∉ db.cards.map CardRow.id →
      create_card db id board_id column_id title description position priority
          due_date now = .ok db' →
      scopeDense cardT db'.cards column_id) ∧
    (∀ (id board_id : String) (card : CardRow) (db' : Db),
      db.cards.find? (fun r => r.id == id) = some card →
      delete_card db id board_id now = .ok db' →
      scopeDense cardT db'.cards card.column_id) ∧
    (∀ (board_id card_id from_column_id to_column_id : String) (t : Int) (db' : Db),
      move_card db board_id card_id from_column_id to_column_id t now = .ok db' →
      scopeDense cardT db'.cards from_column_id ∧
      scopeDense cardT db'.cards to_column_id) ∧
    (∀ (id board_id card_id title : String) (position : Option Int) (db' : Db),
      id ∉ db.subtasks.map SubtaskRow.id →
      create_subtask db id board_id card_id title position now = .ok db' →
      scopeDense subtaskT db'.subtasks card_id) ∧
    (∀ (id board_id card_id : String) (db' : Db),
      delete_subtask db id board_id card_id now = .ok db' →
      scopeDense subtaskT db'.subtasks card_id) ∧
    (∀ (id board_id card_id : String) (title : Option String) (isc : Option Bool)
        (tp : Int) (db' : Db),
      update_subtask db id board_id card_id title isc (some tp) now = .ok db' →
      scopeDense subtaskT db'.subtasks card_id) := by
  obtain ⟨hcol, hcard, hsub⟩ := hW
  refine ⟨?_, ?_, ?_, ?_, ?_, ?_, ?_, ?_, ?_⟩
  · exact fun _ _ _ _ h => move_column_ok_dense hcol h
  · exact fun _ _ _ _ _ _ _ _ _ hf h => create_column_ok_dense hcol hf h
  · exact fun _ _ _ h => delete_column_ok_dense hcol h
  · exact fun _ _ _ _ _ _ _ _ _ hf h => create_card_ok_dense hcard hf h
  · exact fun _ _ _ _ hfind h => delete_card_ok_dense hcard hfind h
  · intro board_id card_id fromc toc t db' h
    by_cases hcc : fromc = toc
    · subst hcc
      exact ⟨move_card_same_ok_dense hcard h, move_card_same_ok_dense hcard h⟩
    · obtain ⟨d1, d2, _, _, _, _⟩ := move_card_cross_ok hcard hcc h
      exact ⟨d1, d2⟩
  · exact fun _ _ _ _ _ _ hf h => create_subtask_ok_dense hsub hf h
  · exact fun _ _ _ _ h => delete_subtask_ok_dense hsub h
  · exact fun _ _ _ _ _ _ _ h => update_subtask_ok_dense hsub h

/-- Witness for C1: deleting subtask `s1` from card `a` of the fixture board
commits, and the card's remaining subtasks are densely positioned. -/
theorem C1_density_after_any_op_witness :
    dbFix.WF ∧ scopeDense subtaskT
      ((delete_subtask dbFix "s1" "B" "a" 9).toOption.getD dbFix).subtasks "a" :=
  ⟨by decide, (C1_density_after_any_op dbFix 9 (by decide)).2.2.2.2.2.2.2.1
    "s1" "B" "a" ((delete_subtask dbFix "s1" "B" "a" 9).toOption.getD dbFix)
    (by rfl)⟩

/-- **C2**: after a successful cross-column `move_card` of a card from
column A (`from_column_id`) to a different column B (`to_column_id`) with a
requested index `i` satisfying `0 ≤ i ≤ |listOrdered(B)|`, the card appears
at index `i` of B's ordered listing, no longer appears in A's ordered
listing, and both scopes' members have dense 0-based positions. -/
theorem C2_cross_scope_move {db : Db}
    {board_id card_id from_column_id to_column_id : String} {i : Nat} {now : Nat}
    {db' : Db} (hW : (db.cards.map CardRow.id).Nodup)
    (hne : from_column_id ≠ to_column_id)
    (hi : i ≤ (listOrderedIds cardT db.cards to_column_id).length)
    (h : move_card db board_id card_id from_column_id to_column_id (i : Int) now
        = .ok db') :
    (listOrderedIds cardT db'.cards to_column_id)[i]? = some card_id
    ∧ card_id ∉ listOrderedIds cardT db'.cards from_column_id
    ∧ scopeDense cardT db'.cards from_column_id
    ∧ scopeDense cardT db'.cards to_column_id := by
  obtain ⟨d1, d2, h3, h4, _, _⟩ := move_card_cross_ok hW hne h
  have hclamp : clampIndex (i : Int)
      (listOrderedIds cardT db.cards to_column_id).length = i := by
    have hc := clampIndex_of_mem (Int.ofNat_nonneg i) (by exact_mod_cast hi)
    exact_mod_cast hc
  rw [hclamp] at h3
  refine ⟨?_, h4, d1, d2⟩
  rw [h3]
  have hlen : i < ((listOrderedIds cardT db.cards to_column_id).insertIdx
      i card_id).length := by
    rw [List.length_insertIdx _ _ hi]
    omega
  rw [List.getElem?_eq_getElem hlen]
  exact congrArg some (List.getElem_insertIdx_self _ _ _ hi)

/-- Witness for C2 on the spec's scenario: the fixture board has
`c1 = [a, b, c]` and `c2 = [d, e]`; moving `b` from `c1` to `c2` at index 1
puts it between `d` and `e` and leaves `c1 = [a, c]`. -/
theorem C2_cross_scope_move_witness :
    (dbFix.cards.map CardRow.id).Nodup ∧ "c1" ≠ "c2" ∧
    (1 ≤ (listOrderedIds cardT dbFix.cards "c2").length) ∧
    ((listOrderedIds cardT (((move_card dbFix "B" "b" "c1" "c2" 1 9).toOption.getD
        dbFix)).cards "c2")[1]? = some "b"
      ∧ "b" ∉ listOrderedIds cardT (((move_card dbFix "B" "b" "c1" "c2"
          1 9).toOption.getD dbFix)).cards "c1"
      ∧ scopeDense cardT (((move_card dbFix "B" "b" "c1" "c2" 1 9).toOption.getD
          dbFix)).cards "c1"
      ∧ scopeDense cardT (((move_card dbFix "B" "b" "c1" "c2" 1 9).toOption.getD
          dbFix)).cards "c2") :=
  ⟨by decide, by decide, by decide,
    @C2_cross_scope_move dbFix "B" "b" "c1" "c2" 1 9
      ((move_card dbFix "B" "b" "c1" "c2" 1 9).toOption.getD dbFix)
      (by decide) (by decide) (by decide) (by rfl)⟩

/-- **C6**: a same-column move of a card to its own current index is a legal
no-op: with the scope densely positioned and `k` the card's current index in
the ordered listing, `move_card` succeeds (performing a full renumbering
pass), the scope's ordered id listing is unchanged, and every card's stored
`(id, position)` association over the whole table is numerically identical
to before the call. -/
theorem C6_noop_move (db : Db) (board_id card_id col : String) (now : Nat)
    (card : CardRow) (target : ColumnRow) (k : Nat)
    (hW : (db.cards.map CardRow.id).Nodup)
    (hdense : scopeDense cardT db.cards col)
    (hfind : db.cards.find? (fun r => r.id == card_id) = some card)
    (hb : card.board_id = board_id) (hc : card.column_id = col)
    (hcol : db.columns.find? (fun c => c.id == col) = some target)
    (htb : target.board_id = board_id)
    (hk : (listOrderedIds cardT db.cards col).findIdx? (fun i => i == card_id)
        = some k) :
    move_card db board_id card_id col col (k : Int) now
        = .ok { db with
            cards := writePositions cardT db.cards
              (listOrderedIds cardT db.cards col) 0 now }
    ∧ listOrderedIds cardT (writePositions cardT db.cards
        (listOrderedIds cardT db.cards col) 0 now) col
      = listOrderedIds cardT db.cards col
    ∧ posPairs cardT (writePositions cardT db.cards
        (listOrderedIds cardT db.cards col) 0 now)
      = posPairs cardT db.cards := by
  obtain ⟨hkl, hget⟩ := findIdx?_beq_get hk
  refine ⟨?_, ?_, ?_⟩
  · have hclamp : clampIndex (k : Int)
        ((listOrderedIds cardT db.cards col).eraseIdx k).length = k := by
      have hlen1 : ((listOrderedIds cardT db.cards col).eraseIdx k).length + 1
          = (listOrderedIds cardT db.cards col).length :=
        List.length_eraseIdx_add_one hkl
      have hle : (k : Int) ≤ (((listOrderedIds cardT db.cards col).eraseIdx
          k).length : Int) := by omega
      have hc2 := clampIndex_of_mem (Int.ofNat_nonneg k) hle
      exact_mod_cast hc2
    have hins : ((listOrderedIds cardT db.cards col).eraseIdx k).insertIdx k card_id
        = listOrderedIds cardT db.cards col := by
      rw [← hget]
      exact insertIdx_eraseIdx_self _ k hkl
    unfold move_card
    simp only [hfind, hb, hc, hcol, htb, eq_self_iff_true, ne_eq, not_true_eq_false,
      if_false, if_true, hk, hclamp, hins]
  · unfold listOrderedIds
    rw [listOrdered_writePositions cardT 0 now
      (nodup_map_rid_listOrdered cardT col hW)
      (listOrdered_perm cardT db.cards col).symm, map_rid_stampFrom]
  · apply posPairs_writePositions_listOrdered cardT now hW
    rw [map_pos_listOrdered_of_dense cardT hdense,
      (listOrdered_perm cardT db.cards col).length_eq]

/-- Witness for C6: moving card `b` (currently at index 1 of column `c1` of
the fixture board) to index 1 commits and preserves every stored position. -/
theorem C6_noop_move_witness :
    move_card dbFix "B" "b" "c1" "c1" 1 9
        = .ok { dbFix with
            cards := writePositions cardT dbFix.cards
              (listOrderedIds cardT dbFix.cards "c1") 0 9 }
    ∧ listOrderedIds cardT (writePositions cardT dbFix.cards
        (listOrderedIds cardT dbFix.cards "c1") 0 9) "c1"
      = listOrderedIds cardT dbFix.cards "c1"
    ∧ posPairs cardT (writePositions cardT dbFix.cards
        (listOrderedIds cardT dbFix.cards "c1") 0 9)
      = posPairs cardT dbFix.cards :=
  C6_noop_move dbFix "B" "b" "c1" 9 (mkCard "b" "B" "c1" 1 1) (mkCol "c1" "B" 0 0) 1
    (by decide) (by decide) (by decide) (by decide) (by decide) (by decide)
    (by decide) (by decide)

/-- **C7**: `move_card` fails with an error exactly when its scope
validations are violated: it errors iff there is no card with the supplied
id belonging to the supplied board and source column, or the destination
column does not exist or belongs to a different board.  When all validations
pass the move commits without error. -/
theorem C7_move_error_iff_validation (db : Db)
    (board_id card_id from_column_id to_column_id : String) (t : Int) (now : Nat)
    (hW : db.WF) :
    (move_card db board_id card_id from_column_id to_column_id t now).toOption
        = none
    ↔ ¬ ((∃ card ∈ db.cards, card.id = card_id ∧ card.board_id = board_id
            ∧ card.column_id = from_column_id)
        ∧ (∃ target ∈ db.columns, target.id = to_column_id
            ∧ target.board_id = board_id)) := by
  obtain ⟨hWcol, hWcard, _⟩ := hW
  rw [← move_card_ok_iff db board_id card_id from_column_id to_column_id t now
    hWcard hWcol]
  cases h : move_card db board_id card_id from_column_id to_column_id t now with
  | ok d => simp [Except.toOption]
  | error e => simp [Except.toOption]

/-- Witness for C7: moving a nonexistent card errors; a fully validated move
(card `b` of column `c1`, destination `c2` of the same board) does not. -/
theorem C7_move_error_iff_validation_witness :
    dbFix.WF
    ∧ (move_card dbFix "B" "zz" "c1" "c2" 0 9).toOption = none
    ∧ ¬ (move_card dbFix "B" "b" "c1" "c2" 1 9).toOption = none :=
  ⟨by decide,
    (C7_move_error_iff_validation dbFix "B" "zz" "c1" "c2" 0 9 (by decide)).mpr
      (by decide),
    fun hn => ((C7_move_error_iff_validation dbFix "B" "b" "c1" "c2" 1 9
      (by decide)).mp hn) (by decide)⟩

/-- **C9** (amended): a successful `move_card` leaves the column table and
the subtask table untouched (so the board's column ordering and every other
scope's stored positions are unchanged), preserves every card's `id`,
`board_id`, `title`, `description`, `priority`, `due_date`, `archived_at`
and `created_at` row-by-row, changes `column_id` for no card but the moved
one, and leaves every card outside the source and destination columns
entirely unchanged, `position` included.  The original claim's "all
non-position, non-parent fields of every card remain unchanged" does not
hold for `updated_at`, which the renumbering pass stamps on every card of
the affected scope(s); see the counterexample. -/
theorem C9_frame_at_most_two_scopes {db : Db}
    {board_id card_id from_column_id to_column_id : String} {t : Int} {now : Nat}
    {db' : Db} (hW : (db.cards.map CardRow.id).Nodup)
    (h : move_card db board_id card_id from_column_id to_column_id t now
      = .ok db') :
    db'.columns = db.columns
    ∧ db'.subtasks = db.subtasks
    ∧ db'.cards.map CardRow.id = db.cards.map CardRow.id
    ∧ db'.cards.map CardRow.board_id = db.cards.map CardRow.board_id
    ∧ db'.cards.map CardRow.title = db.cards.map CardRow.title
    ∧ db'.cards.map CardRow.description = db.cards.map CardRow.description
    ∧ db'.cards.map CardRow.priority = db.cards.map CardRow.priority
    ∧ db'.cards.map CardRow.due_date = db.cards.map CardRow.due_date
    ∧ db'.cards.map CardRow.archived_at = db.cards.map CardRow.archived_at
    ∧ db'.cards.map CardRow.created_at = db.cards.map CardRow.created_at
    ∧ (db'.cards.filter (fun r => !(r.id == card_id))).map
        (fun r => (r.id, r.column_id))
      = (db.cards.filter (fun r => !(r.id == card_id))).map
        (fun r => (r.id, r.column_id))
    ∧ db'.cards.filter (fun r => !(r.column_id == from_column_id)
          && !(r.column_id == to_column_id))
      = db.cards.filter (fun r => !(r.column_id == from_column_id)
          && !(r.column_id == to_column_id)) := by
  obtain ⟨hcols, hsubs, F, hmap, hpay, hcol₁, hcol₂, hcfrom, huntouched⟩ :=
    move_card_ok_map hW h
  refine ⟨hcols, hsubs, ?_, ?_, ?_, ?_, ?_, ?_, ?_, ?_, ?_, ?_⟩
  · rw [hmap, List.map_map]
    exact List.map_congr_left fun r _ => (hpay r).1
  · rw [hmap, List.map_map]
    exact List.map_congr_left fun r _ => (hpay r).2.1
  · rw [hmap, List.map_map]
    exact List.map_congr_left fun r _ => (hpay r).2.2.1
  · rw [hmap, List.map_map]
    exact List.map_congr_left fun r _ => (hpay r).2.2.2.1
  · rw [hmap, List.map_map]
    exact List.map_congr_left fun r _ => (hpay r).2.2.2.2.1
  · rw [hmap, List.map_map]
    exact List.map_congr_left fun r _ => (hpay r).2.2.2.2.2.1
  · rw [hmap, List.map_map]
    exact List.map_congr_left fun r _ => (hpay r).2.2.2.2.2.2.1
  · rw [hmap, List.map_map]
    exact List.map_congr_left fun r _ => (hpay r).2.2.2.2.2.2.2
  · rw [hmap, List.filter_map]
    have hfeq : db.cards.filter ((fun r => !(r.id == card_id)) ∘ F)
        = db.cards.filter (fun r => !(r.id == card_id)) := by
      refine List.filter_congr ?_
      intro r _
      show (!((F r).id == card_id)) = (!(r.id == card_id))
      rw [(hpay r).1]
    rw [hfeq, List.map_map]
    refine List.map_congr_left ?_
    intro r hr
    have hrid : r.id ≠ card_id := by
      have hb := (List.mem_filter.mp hr).2
      simpa using hb
    show ((F r).id, (F r).column_id) = (r.id, r.column_id)
    rw [(hpay r).1, hcol₁ r hrid]
  · rw [hmap, List.filter_map]
    have hfeq : db.cards.filter ((fun r => !(r.column_id == from_column_id)
        && !(r.column_id == to_column_id)) ∘ F)
        = db.cards.filter (fun r => !(r.column_id == from_column_id)
          && !(r.column_id == to_column_id)) := by
      refine List.filter_congr ?_
      intro r hr
      show (!((F r).column_id == from_column_id)
          && !((F r).column_id == to_column_id))
        = (!(r.column_id == from_column_id) && !(r.column_id == to_column_id))
      rcases hcol₂ r with hpres | hto
      · rw [hpres]
      · rw [hto]
        by_cases hrf : r.column_id = from_column_id
        · rw [hrf]
          simp
        · by_cases hrt : r.column_id = to_column_id
          · rw [hrt]
          · have hfix := huntouched r hr hrf hrt
            rw [hfix] at hto
            exact absurd hto hrt
    rw [hfeq]
    have hid : (db.cards.filter (fun r => !(r.column_id == from_column_id)
        && !(r.column_id == to_column_id))).map F
        = (db.cards.filter (fun r => !(r.column_id == from_column_id)
          && !(r.column_id == to_column_id))).map id := by
      refine List.map_congr_left ?_
      intro r hr
      obtain ⟨hrm, hq⟩ := List.mem_filter.mp hr
      have hrf : r.column_id ≠ from_column_id := by
        intro hEq
        rw [hEq] at hq
        simp at hq
      have hrt : r.column_id ≠ to_column_id := by
        intro hEq
        rw [hEq] at hq
        simp at hq
      exact huntouched r hrm hrf hrt
    rw [hid, List.map_id]

/-- **C9** counterexample to the claim as frozen: `updated_at` is a
non-position, non-parent card field, yet the same-column reorder
`move_card B b c1 c1 1` rewrites it for every card of column `c1` — here it
changes even on card `a`, which is not the card being moved. -/
theorem C9_frame_counterexample :
    (move_card dbFix "B" "b" "c1" "c1" 1 9).toOption ≠ none
    ∧ ((move_card dbFix "B" "b" "c1" "c1" 1 9).toOption.getD dbFix).cards.map
        CardRow.updated_at
      ≠ dbFix.cards.map CardRow.updated_at
    ∧ ((move_card dbFix "B" "b" "c1" "c1" 1 9).toOption.getD
        dbFix).cards.find? (fun r => r.id == "a")
      ≠ dbFix.cards.find? (fun r => r.id == "a") :=
  ⟨by decide, by decide, by decide⟩

/-- Witness for the amended C9 on a concrete cross-column move. -/
theorem C9_frame_witness :
    (dbFix.cards.map CardRow.id).Nodup
    ∧ ((move_card dbFix "B" "b" "c1" "c2" 0 9).toOption.getD dbFix).cards.map
        CardRow.title = dbFix.cards.map CardRow.title
    ∧ ((move_card dbFix "B" "b" "c1" "c2" 0 9).toOption.getD dbFix).subtasks
      = dbFix.subtasks :=
  ⟨by decide,
    (@C9_frame_at_most_two_scopes dbFix "B" "b" "c1" "c2" 0 9
        ((move_card dbFix "B" "b" "c1" "c2" 0 9).toOption.getD dbFix)
        (by decide) (by rfl)).2.2.2.2.1,
    (@C9_frame_at_most_two_scopes dbFix "B" "b" "c1" "c2" 0 9
        ((move_card dbFix "B" "b" "c1" "c2" 0 9).toOption.getD dbFix)
        (by decide) (by rfl)).2.1⟩

/-- **C4** (amended): the three create operations do not share one position
policy.  `create_subtask` clamps: no requested index means append at the
current member count `n`, a negative index becomes `0`, an index above `n`
becomes `n`.  `create_column` and `create_card` instead *normalize* every
out-of-range request — negative included — to `max+1` (append), and then
reject with an error any normalized position already occupied by a member of
the scope; on a densely positioned scope, requesting the append index `n`
passes the duplicate check and the creation commits.  In particular a
negative requested position does *not* yield position `0` for columns or
cards, and an in-range requested position on a dense scope does not succeed
— both contradicting the claim as frozen (see the counterexample). -/
theorem C4_create_position_policy (db : Db)
    (id board_id column_id card_id title : String) (t : Int) (now : Nat) :
    (create_subtask db id board_id card_id title none now
      = create_subtask db id board_id card_id title
          (some ((scopeRows subtaskT db.subtasks card_id).length : Int)) now)
    ∧ (t < 0 → create_subtask db id board_id card_id title (some t) now
      = create_subtask db id board_id card_id title (some 0) now)
    ∧ (((scopeRows subtaskT db.subtasks card_id).length : Int) < t →
      create_subtask db id board_id card_id title (some t) now
      = create_subtask db id board_id card_id title
          (some ((scopeRows subtaskT db.subtasks card_id).length : Int)) now)
    ∧ (∀ (color icon : Option String) (is_enabled : Option Bool)
        (wip_limit : Option Int),
      (t < 0 ∨ (sqlMaxPos columnT db.columns board_id).getD (-1) + 1 < t) →
      create_column db id board_id title t color icon is_enabled wip_limit now
      = create_column db id board_id title
          ((sqlMaxPos columnT db.columns board_id).getD (-1) + 1) color icon
          is_enabled wip_limit now)
    ∧ (∀ (color icon : Option String) (is_enabled : Option Bool)
        (wip_limit : Option Int),
      (scopeRows columnT db.columns board_id).any (fun r => r.position ==
        (if t < 0 ∨ (sqlMaxPos columnT db.columns board_id).getD (-1) + 1 < t
         then (sqlMaxPos columnT db.columns board_id).getD (-1) + 1 else t))
        = true →
      (create_column db id board_id title t color icon is_enabled wip_limit
        now).toOption = none)
    ∧ ((strTrim title).isEmpty = false → (strTrim title).utf8ByteSize ≤ 200 →
      scopeDense columnT db.columns board_id →
      (create_column db id board_id title
        ((scopeRows columnT db.columns board_id).length : Int) none none none
        none now).toOption ≠ none)
    ∧ (∀ (description : Option String) (priority : String)
        (due_date : Option String),
      (t < 0 ∨ (sqlMaxPos cardT db.cards column_id).getD (-1) + 1 < t) →
      create_card db id board_id column_id title description t priority
          due_date now
      = create_card db id board_id column_id title description
          ((sqlMaxPos cardT db.cards column_id).getD (-1) + 1) priority
          due_date now)
    ∧ (∀ (description : Option String) (priority : String)
        (due_date : Option String),
      (scopeRows cardT db.cards column_id).any (fun r => r.position ==
        (if t < 0 ∨ (sqlMaxPos cardT db.cards column_id).getD (-1) + 1 < t
         then (sqlMaxPos cardT db.cards column_id).getD (-1) + 1 else t))
        = true →
      (create_card db id board_id column_id title description t priority
        due_date now).toOption = none) := by
  refine ⟨rfl, ?_, ?_, ?_, ?_, ?_, ?_, ?_⟩
  · intro ht
    unfold create_subtask
    simp only [Option.getD_some, if_pos ht, if_neg (lt_irrefl (0 : Int))]
  · intro ht
    have h1 : ¬ t < 0 := by omega
    have h2 : ¬ ((scopeRows subtaskT db.subtasks card_id).length : Int) < 0 := by
      omega
    unfold create_subtask
    simp only [Option.getD_some, if_neg h1, if_pos ht, if_neg h2, ite_self]
  · intro color icon is_enabled wip_limit hout
    have hset : (if t < 0 ∨ (sqlMaxPos columnT db.columns board_id).getD (-1)
          + 1 < t
        then (sqlMaxPos columnT db.columns board_id).getD (-1) + 1 else t)
        = (sqlMaxPos columnT db.columns board_id).getD (-1) + 1 := if_pos hout
    unfold create_column
    simp only [hset, ite_self]
  · intro color icon is_enabled wip_limit hocc
    unfold create_column
    dsimp only []
    repeat' split
    all_goals rfl
  · intro hti hlen hdense
    have hv : validate_string_input (strTrim title) 200 "Nome da coluna" = .ok () := by
      unfold validate_string_input
      rw [if_neg (by omega)]
    have hmax := sqlMaxPos_of_dense columnT hdense
    have hcond : ¬ (((scopeRows columnT db.columns board_id).length : Int) < 0
        ∨ ((scopeRows columnT db.columns board_id).length : Int) - 1 + 1
          < ((scopeRows columnT db.columns board_id).length : Int)) := by
      omega
    have hany : (scopeRows columnT db.columns board_id).any (fun r =>
        r.position == ((scopeRows columnT db.columns board_id).length : Int))
        = false := by
      rw [List.any_eq_false]
      intro r hr
      have hpos : columnT.pos r ∈ (scopeRows columnT db.columns
          board_id).map columnT.pos := List.mem_map_of_mem _ hr
      have hlt := lt_of_mem_intRange (hdense.mem_iff.mp hpos)
      simp only [columnT_pos_apply] at hlt
      simp only [beq_iff_eq]
      omega
    unfold create_column
    simp only [hti, Bool.false_eq_true, if_false, hv, hmax, if_neg hcond, hany]
    exact fun hc => Option.noConfusion hc
  · intro description priority due_date hout
    have hset : (if t < 0 ∨ (sqlMaxPos cardT db.cards column_id).getD (-1)
          + 1 < t
        then (sqlMaxPos cardT db.cards column_id).getD (-1) + 1 else t)
        = (sqlMaxPos cardT db.cards column_id).getD (-1) + 1 := if_pos hout
    unfold create_card
    simp only [hset, ite_self]
  · intro description priority due_date hocc
    unfold create_card
    dsimp only []
    repeat' split
    all_goals rfl

/-- **C4** counterexample to the claim as frozen, on a board whose single
column occupies position 0: requesting position `-1` does not create the
column at position `0` — it is normalized to append and the new column ends
at position `1`; and requesting the in-range position `0` does not succeed —
the occupied position is rejected with an error. -/
theorem C4_create_counterexample :
    ((create_column dbOneCol "c2" "B" "new" (-1) none none none none
        9).toOption.getD dbOneCol).columns.map (fun c => (c.id, c.position))
      = [("c1", 0), ("c2", 1)]
    ∧ (create_column dbOneCol "c2" "B" "new" 0 none none none none
        9).toOption = none :=
  ⟨by decide, by decide⟩

/-- Witness for the amended C4: on the same one-column board, requesting the
occupied position 0 errors, and the hypothesis of the occupied-position
conjunct holds concretely. -/
theorem C4_create_position_policy_witness :
    ((scopeRows columnT dbOneCol.columns "B").any (fun r => r.position ==
      (if (0 : Int) < 0 ∨ (sqlMaxPos columnT dbOneCol.columns "B").getD (-1)
          + 1 < 0
       then (sqlMaxPos columnT dbOneCol.columns "B").getD (-1) + 1 else 0))
      = true)
    ∧ (create_column dbOneCol "c2" "B" "new" 0 none none none none
        9).toOption = none :=
  ⟨by decide,
    (C4_create_position_policy dbOneCol "c2" "B" "c1" "a" "new" 0
      9).2.2.2.2.1 none none none none (by decide)⟩

/-- **C8**: `move_card` is atomic with respect to failure.  In the
failure-injecting transaction model — the same statement sequence as
`move_card`, where an adversarial oracle may turn any SQL statement into a
storage failure — every aborted run (validation failure or injected storage
failure at any of the statements) leaves the committed state exactly the
pre-operation state, and every committed run publishes exactly the result of
the atomic `move_card` function: no partial renumbering, detached card or
duplicated card is ever visible in committed state. -/
theorem C8_move_atomic (oracle : Nat → Bool) (db : Db)
    (board_id card_id from_column_id to_column_id : String) (t : Int)
    (now : Nat) :
    (∀ e, runTx (move_card_tx board_id card_id from_column_id to_column_id t
        now) oracle db = .error e →
      txCommitted db (runTx (move_card_tx board_id card_id from_column_id
        to_column_id t now) oracle db) = db)
    ∧ (∀ db', runTx (move_card_tx board_id card_id from_column_id to_column_id
        t now) oracle db = .ok db' →
      move_card db board_id card_id from_column_id to_column_id t now
        = .ok db') := by
  constructor
  · intro e he
    rw [he]
    rfl
  · intro db' hok
    unfold runTx at hok
    split at hok
    · exact Except.noConfusion hok
    · rename_i x tfin heqM
      injection hok with hok
      subst hok
      unfold move_card_tx TxM.bind txRead txWrite txStmt txFail at heqM
      dsimp only [id] at heqM
      split at heqM
      · exact Except.noConfusion heqM
      · rename_i a0 t0 heq0
        split at heq0
        · exact Except.noConfusion heq0
        · injection heq0 with heq0
          injection heq0 with ha0 ht0
          subst ha0
          subst ht0
          try dsimp only [] at heqM
          cases hfind : db.cards.find? (fun r => r.id == card_id) with
          | none =>
            rw [hfind] at heqM
            try dsimp only [] at heqM
            exact Except.noConfusion heqM
          | some card =>
            rw [hfind] at heqM
            try dsimp only [] at heqM
            split at heqM
            · try dsimp only [] at heqM
              exact Except.noConfusion heqM
            · rename_i hbne
              split at heqM
              · try dsimp only [] at heqM
                exact Except.noConfusion heqM
              · rename_i hcne
                try dsimp only [] at heqM
                split at heqM
                · exact Except.noConfusion heqM
                · rename_i a1 t1 heq1
                  split at heq1
                  · exact Except.noConfusion heq1
                  · injection heq1 with heq1
                    injection heq1 with ha1 ht1
                    subst ha1
                    subst ht1
                    try dsimp only [] at heqM
                    cases hcol : db.columns.find? (fun c => c.id == to_column_id) with
                    | none =>
                      rw [hcol] at heqM
                      try dsimp only [] at heqM
                      exact Except.noConfusion heqM
                    | some target =>
                      rw [hcol] at heqM
                      try dsimp only [] at heqM
                      split at heqM
                      · try dsimp only [] at heqM
                        exact Except.noConfusion heqM
                      · rename_i htbne
                        try dsimp only [] at heqM
                        split at heqM
                        · exact Except.noConfusion heqM
                        · rename_i a2 t2 heq2
                          split at heq2
                          · exact Except.noConfusion heq2
                          · injection heq2 with heq2
                            injection heq2 with ha2 ht2
                            subst ha2
                            subst ht2
                            try dsimp only [] at heqM
                            cases hk : (listOrderedIds cardT db.cards
                                from_column_id).findIdx?
                                (fun i => i == card_id) with
                            | none =>
                              rw [hk] at heqM
                              try dsimp only [] at heqM
                              exact Except.noConfusion heqM
                            | some k =>
                              rw [hk] at heqM
                              try dsimp only [] at heqM
                              split at heqM
                              · rename_i hft
                                have hfin := txWriteCardPositions_ok _ 0 now
                                  oracle _ _ _ heqM
                                unfold move_card
                                simp only [hfind, if_neg hbne, if_neg hcne,
                                  hcol, if_neg htbne, hk, if_pos hft]
                                rw [hfin]
                              · rename_i hft
                                try dsimp only [] at heqM
                                split at heqM
                                · exact Except.noConfusion heqM
                                · rename_i a3 t3 hw1
                                  have ht3 := txWriteCardPositions_ok _ 0 now
                                    oracle _ _ _ hw1
                                  try dsimp only [] at heqM
                                  split at heqM
                                  · exact Except.noConfusion heqM
                                  · rename_i a4 t4 heq4
                                    split at heq4
                                    · exact Except.noConfusion heq4
                                    · injection heq4 with heq4
                                      injection heq4 with ha4 ht4
                                      subst ha4
                                      subst ht4
                                      try dsimp only [] at heqM
                                      split at heqM
                                      · exact Except.noConfusion heqM
                                      · rename_i a5 t5 heq5
                                        split at heq5
                                        · exact Except.noConfusion heq5
                                        · injection heq5 with heq5
                                          injection heq5 with ha5 ht5
                                          subst ht5
                                          try dsimp only [] at heqM
                                          have hfin := txWriteCardPositions_ok
                                            _ 0 now oracle _ _ _ heqM
                                          unfold move_card
                                          simp only [hfind, if_neg hbne,
                                            if_neg hcne, hcol, if_neg htbne,
                                            hk, if_neg hft]
                                          rw [hfin, ht3]

/-- Witness for C8: a storage failure injected at statement 3 (the first
position write) aborts the cross-column move of card `b` and the committed
state is exactly the fixture; with no failure injected, the committed result
is exactly what the atomic `move_card` returns. -/
theorem C8_move_atomic_witness :
    txCommitted dbFix (runTx (move_card_tx "B" "b" "c1" "c2" 1 9)
        (fun n => n == 3) dbFix) = dbFix
    ∧ move_card dbFix "B" "b" "c1" "c2" 1 9
      = .ok ((runTx (move_card_tx "B" "b" "c1" "c2" 1 9) (fun _ => false)
          dbFix).toOption.getD dbFix) :=
  ⟨(C8_move_atomic (fun n => n == 3) dbFix "B" "b" "c1" "c2" 1 9).1
      "Falha ao atualizar posições dos cartões" (by rfl),
    (C8_move_atomic (fun _ => false) dbFix "B" "b" "c1" "c2" 1 9).2
      ((runTx (move_card_tx "B" "b" "c1" "c2" 1 9) (fun _ => false)
        dbFix).toOption.getD dbFix) (by rfl)⟩

/-- **C5**: the renumbering operation is idempotent.  For each of the three
normalize functions (`normalize_column_positions_tx`,
`normalize_card_positions_tx`, `normalize_subtask_positions_tx`) and every
scope, running the pass a second time (at any later clock) writes the same
position value for every row: the stored `(id, position)` association of the
whole table is unchanged by the second run. -/
theorem C5_renumber_idempotent (db : Db) (board_id column_id card_id : String)
    (now now₂ : Nat) (hW : db.WF) :
    posPairs columnT (normalize_column_positions_tx
        (normalize_column_positions_tx db board_id now) board_id now₂).columns
      = posPairs columnT (normalize_column_positions_tx db board_id now).columns ∧
    posPairs cardT (normalize_card_positions_tx
        (normalize_card_positions_tx db column_id now) column_id now₂).cards
      = posPairs cardT (normalize_card_positions_tx db column_id now).cards ∧
    posPairs subtaskT (normalize_subtask_positions_tx
        (normalize_subtask_positions_tx db card_id now) card_id now₂).subtasks
      = posPairs subtaskT (normalize_subtask_positions_tx db card_id now).subtasks := by
  obtain ⟨h1, h2, h3⟩ := hW
  exact ⟨posPairs_normalize_twice columnT board_id now now₂ h1,
    posPairs_normalize_twice cardT column_id now now₂ h2,
    posPairs_normalize_twice subtaskT card_id now now₂ h3⟩

/-- Witness for C5 on a concrete scope with messy positions. -/
theorem C5_renumber_idempotent_witness :
    posPairs cardT (normalize_card_positions_tx
        (normalize_card_positions_tx dbMessy "c1" 9) "c1" 11).cards
      = posPairs cardT (normalize_card_positions_tx dbMessy "c1" 9).cards :=
  (C5_renumber_idempotent dbMessy "B" "c1" "a" 9 11 (by decide)).2.1

/-- **C10**: the two-phase write of `update_subtask`'s reorder — first
storing each subtask's new index offset by the list length, then running the
0-based normalization pass — produces exactly the same committed table as
directly writing the dense 0-based index of each subtask of the reordered
sequence `P`. -/
theorem C10_two_phase_reorder_refines_direct (db : Db) (card_id : String)
    (P : List SubtaskRow) (now : Nat)
    (hW : (db.subtasks.map SubtaskRow.id).Nodup)
    (hperm : (scopeRows subtaskT db.subtasks card_id).Perm P) :
    normalize_subtask_positions_tx
      { db with
          subtasks := writePositions subtaskT db.subtasks (P.map SubtaskRow.id)
            ((P.map SubtaskRow.id).length : Int) now }
      card_id now
      = directSubtaskRenumber db (P.map SubtaskRow.id) now := by
  have hmap : P.map SubtaskRow.id = P.map subtaskT.rid := rfl
  have hcore := writePositions_offset_then_normalize subtaskT now hW hperm
  rw [hmap, List.length_map]
  unfold normalize_subtask_positions_tx directSubtaskRenumber
  exact congrArg (fun s => { db with subtasks := s }) hcore

/-- Witness for C10: reordering card `a`'s subtasks to `[s2, s0, s1]`. -/
theorem C10_two_phase_reorder_refines_direct_witness :
    normalize_subtask_positions_tx
      { dbFix with
          subtasks := writePositions subtaskT dbFix.subtasks
            ([mkSub "s2" "B" "a" 2 2, mkSub "s0" "B" "a" 0 0,
              mkSub "s1" "B" "a" 1 1].map SubtaskRow.id)
            (([mkSub "s2" "B" "a" 2 2, mkSub "s0" "B" "a" 0 0,
              mkSub "s1" "B" "a" 1 1].map SubtaskRow.id).length : Int) 9 }
      "a" 9
      = directSubtaskRenumber dbFix
          ([mkSub "s2" "B" "a" 2 2, mkSub "s0" "B" "a" 0 0,
            mkSub "s1" "B" "a" 1 1].map SubtaskRow.id) 9 :=
  C10_two_phase_reorder_refines_direct dbFix "a"
    [mkSub "s2" "B" "a" 2 2, mkSub "s0" "B" "a" 0 0, mkSub "s1" "B" "a" 1 1] 9
    (by decide) (by decide)

/-- **C3**: every move operation clamps the requested target index into
`[0, len]`.  A negative target index produces exactly the same result as
target `0`; a target above the bound produces the same result as the
maximum legal index, where `len` is the source sequence's length after
removing the moved item for a same-scope move (`move_column`, same-column
`move_card`, `update_subtask` reorder) and the destination listing's length
for a cross-column `move_card`. -/
theorem C3_clamping (db : Db)
    (board_id column_id card_id from_column_id to_column_id : String)
    (sub_id sub_board sub_card : String) (t : Int) (now : Nat) :
    (t < 0 → move_column db board_id column_id t now
        = move_column db board_id column_id 0 now) ∧
    (∀ k : Nat,
      (listOrderedIds columnT db.columns board_id).findIdx? (fun i => i == column_id)
          = some k →
      ((((listOrderedIds columnT db.columns board_id).eraseIdx k).length : Int) < t →
      move_column db board_id column_id t now
        = move_column db board_id column_id
            (((listOrderedIds columnT db.columns board_id).eraseIdx k).length : Int)
            now)) ∧
    (t < 0 → move_card db board_id card_id from_column_id to_column_id t now
        = move_card db board_id card_id from_column_id to_column_id 0 now) ∧
    (from_column_id = to_column_id → ∀ k : Nat,
      (listOrderedIds cardT db.cards from_column_id).findIdx? (fun i => i == card_id)
          = some k →
      ((((listOrderedIds cardT db.cards from_column_id).eraseIdx k).length : Int) < t →
      move_card db board_id card_id from_column_id to_column_id t now
        = move_card db board_id card_id from_column_id to_column_id
            (((listOrderedIds cardT db.cards from_column_id).eraseIdx k).length : Int)
            now)) ∧
    ((db.cards.map CardRow.id).Nodup → from_column_id ≠ to_column_id → ∀ k : Nat,
      (listOrderedIds cardT db.cards from_column_id).findIdx? (fun i => i == card_id)
          = some k →
      (((listOrderedIds cardT db.cards to_column_id).length : Int) < t →
      move_card db board_id card_id from_column_id to_column_id t now
        = move_card db board_id card_id from_column_id to_column_id
            ((listOrderedIds cardT db.cards to_column_id).length : Int) now)) ∧
    (t < 0 → ∀ (title : Option String) (isc : Option Bool),
      update_subtask db sub_id sub_board sub_card title isc (some t) now
        = update_subtask db sub_id sub_board sub_card title isc (some 0) now) ∧
    (∀ k : Nat,
      (listOrderedIds subtaskT db.subtasks sub_card).findIdx? (fun i => i == sub_id)
          = some k →
      ((((listOrderedIds subtaskT db.subtasks sub_card).eraseIdx k).length : Int) < t →
      update_subtask db sub_id sub_board sub_card none none (some t) now
        = update_subtask db sub_id sub_board sub_card none none
            (some (((listOrderedIds subtaskT db.subtasks sub_card).eraseIdx
              k).length : Int)) now)) := by
  have hclneg : t < 0 → ∀ len : Nat, clampIndex t len = clampIndex 0 len :=
    fun ht len => by rw [clampIndex_of_neg len ht, clampIndex_zero]
  refine ⟨?_, ?_, ?_, ?_, ?_, ?_, ?_⟩
  · intro ht
    unfold move_column
    simp only [hclneg ht]
  · intro k hk ht
    have hempty : (listOrderedIds columnT db.columns board_id).isEmpty = false := by
      cases hcase : listOrderedIds columnT db.columns board_id with
      | nil => rw [hcase] at hk; simp at hk
      | cons a l => rfl
    unfold move_column
    simp only [hempty, Bool.false_eq_true, if_false, hk, clampIndex_of_gt ht,
      clampIndex_coe_self]
  · intro ht
    unfold move_card
    simp only [hclneg ht]
  · intro heq k hk ht
    rw [heq] at hk ht
    unfold move_card
    rw [heq]
    simp only [hk, eq_self_iff_true, if_true, clampIndex_of_gt ht, clampIndex_coe_self]
  · intro hW hne k hk ht
    have hlist := listOrdered_writePositions_other cardT hW hne 0 now k
    have hinv : listOrderedIds cardT (writePositions cardT db.cards
        ((listOrderedIds cardT db.cards from_column_id).eraseIdx k) 0 now)
        to_column_id = listOrderedIds cardT db.cards to_column_id :=
      congrArg (List.map cardT.rid) hlist
    unfold move_card
    simp only [hk, eq_false hne, if_false, hinv, clampIndex_of_gt ht,
      clampIndex_coe_self]
  · intro ht title isc
    unfold update_subtask
    simp only [hclneg ht]
  · intro k hk ht
    unfold update_subtask
    simp only [hk, Option.isSome_none, Bool.or_self, Bool.false_eq_true, if_false,
      clampIndex_of_gt ht, clampIndex_coe_self]

/-- Witness for C3 on the running scenario: a target of `-5` behaves as `0`
and a target of `999` appends. -/
theorem C3_clamping_witness :
    move_card dbFix "B" "b" "c1" "c1" (-5) 9 = move_card dbFix "B" "b" "c1" "c1" 0 9 ∧
    move_card dbFix "B" "b" "c1" "c2" 999 9
      = move_card dbFix "B" "b" "c1" "c2"
          ((listOrderedIds cardT dbFix.cards "c2").length : Int) 9 ∧
    (listOrderedIds cardT dbFix.cards "c2").length = 2 := by
  refine ⟨?_, ?_, by decide⟩
  · exact (C3_clamping dbFix "B" "c1" "b" "c1" "c1" "s0" "B" "a" (-5) 9).2.2.1
      (by decide)
  · exact (C3_clamping dbFix "B" "c1" "b" "c1" "c2" "s0" "B" "a" 999 9).2.2.2.2.1
      (by decide) (by decide) 1 (by decide) (by decide)

end Kanban
